import Mathlib

/-!
Verification of the six-degrees connection search
(src/server/src/lib/six-degrees.ts).

The TypeScript module is shallowly embedded: the external TMDB client and
the deceased-persons database are modelled as a record of pure functions
(`Env`), the module-level filmography cache and the externally observable
calls (filmography fetches, movie-cast fetches, deceased-record queries)
are threaded through an explicit `SearchState`, and the `while` loop of the
bidirectional BFS is driven by an explicit fuel parameter, with exhaustion
reported as a distinct `diverged` outcome.  JavaScript `Map`s are modelled
as insertion-ordered association lists, and `Array.prototype.sort` (stable
since ES2019) as a stable insertion sort on the same comparator.
-/

namespace SixDegrees

/-- Entry of a person's filmography as returned by the provider
(`TMDBPersonCredits.cast` element): movie id, title, raw release date
(the empty string models a missing/falsy `release_date`), popularity.
Popularity is modelled as an integer ordering metric. -/
structure FilmEntry where
  id : Nat
  title : String
  release_date : String
  popularity : Int
deriving Repr, DecidableEq

/-- Cast-list entry of a movie (billing order as returned by the provider). -/
structure CastMember where
  id : Nat
deriving Repr, DecidableEq

/-- Person detail record (`getPersonDetails`); `deathday = none` models a
null/absent death date, so JavaScript truthiness of `deathday` is
`Option.isSome`. -/
structure PersonDetails where
  id : Nat
  name : String
  profile_path : Option String
  deathday : Option String
deriving Repr, DecidableEq

/-- Row of the deceased-persons database (`getDeceasedPersons`). -/
structure DeceasedRow where
  tmdb_id : Nat
  name : String
  deathday : Option String
  cause_of_death : Option String
  age_at_death : Option Int
deriving Repr, DecidableEq

/-- External collaborators of the module: the three TMDB lookups and the
deceased-persons bulk query.  `Except Unit` models a rejected promise. -/
structure Env where
  getPersonCredits : Nat → Except Unit (List FilmEntry)
  getMovieCredits : Nat → Except Unit (List CastMember)
  getPersonDetails : Nat → Except Unit PersonDetails
  getDeceasedPersons : List Nat → Except Unit (List (Nat × DeceasedRow))

/-- Observable module state during one search: the module-level
`filmographyCache`, plus logs of the provider calls actually issued
(filmography fetches, movie-cast fetches) and of the deceased-record
queries, recorded in issue order. -/
structure SearchState where
  cache : List (Nat × List FilmEntry)
  creditFetches : List Nat
  castFetches : List Nat
  deceasedQueries : List (List Nat)
deriving Repr, DecidableEq

/-- Fresh state: empty cache, nothing fetched yet. -/
def SearchState.empty : SearchState := ⟨[], [], [], []⟩

/-! ### Association lists modelling JavaScript `Map` -/

/-- First binding of key `k`, mirroring `Map.prototype.get`. -/
def lookup? {α : Type} : List (Nat × α) → Nat → Option α
  | [], _ => none
  | (k', v) :: rest, k => if k' = k then some v else lookup? rest k

/-- Mirrors `Map.prototype.has`. -/
def hasK {α : Type} (l : List (Nat × α)) (k : Nat) : Bool :=
  (lookup? l k).isSome

/-- Mirrors `Map.prototype.set`: replace the binding in place if the key is
present, otherwise append (insertion order preserved). -/
def setK {α : Type} : List (Nat × α) → Nat → α → List (Nat × α)
  | [], k, v => [(k, v)]
  | (k', v') :: rest, k, v =>
    if k' = k then (k, v) :: rest else (k', v') :: setK rest k v

theorem lookup?_setK {α : Type} (l : List (Nat × α)) (k0 : Nat) (v0 : α) (k : Nat) :
    lookup? (setK l k0 v0) k = if k0 = k then some v0 else lookup? l k := by
  induction l with
  | nil => simp [setK, lookup?]
  | cons p rest ih =>
    obtain ⟨k', v'⟩ := p
    by_cases h1 : k' = k0
    · by_cases h2 : k0 = k <;> simp [setK, lookup?, h1, h2]
    · by_cases h2 : k' = k
      · subst h2
        have : ¬ k0 = k' := fun h => h1 h.symm
        simp [setK, lookup?, h1, this]
      · simp [setK, lookup?, h1, h2, ih]

theorem hasK_setK {α : Type} (l : List (Nat × α)) (k0 : Nat) (v0 : α) (k : Nat) :
    hasK (setK l k0 v0) k = (if k0 = k then true else hasK l k) := by
  by_cases h : k0 = k <;> simp [hasK, lookup?_setK, h]

/-! ### Stable sort modelling `Array.prototype.sort` -/

/-- Stable insertion of `x` in front of the first element `y` with
`le x y`; used to model the stable `Array.prototype.sort`. -/
def insertLe {α : Type} (le : α → α → Bool) (x : α) : List α → List α
  | [] => [x]
  | y :: ys => if le x y then x :: y :: ys else y :: insertLe le x ys

/-- Stable insertion sort by the comparator `le`; models
`Array.prototype.sort` (stable per the ECMAScript specification) run with a
comparator whose induced preorder is `le`. -/
def sortLe {α : Type} (le : α → α → Bool) : List α → List α
  | [] => []
  | x :: xs => insertLe le x (sortLe le xs)

theorem mem_insertLe {α : Type} (le : α → α → Bool) (x : α) (l : List α) (a : α) :
    a ∈ insertLe le x l ↔ a = x ∨ a ∈ l := by
  induction l with
  | nil => simp [insertLe]
  | cons y ys ih =>
    by_cases h : le x y
    · simp [insertLe, h]
    · simp only [insertLe, h, if_false, Bool.false_eq_true, List.mem_cons, ih]
      tauto

theorem mem_sortLe {α : Type} (le : α → α → Bool) (l : List α) (a : α) :
    a ∈ sortLe le l ↔ a ∈ l := by
  induction l with
  | nil => simp [sortLe]
  | cons x xs ih => simp [sortLe, mem_insertLe, ih]

theorem pairwise_insertLe {α : Type} (le : α → α → Bool)
    (htot : ∀ a b, le a b = true ∨ le b a = true)
    (htrans : ∀ a b c, le a b = true → le b c = true → le a c = true)
    (x : α) (l : List α)
    (h : l.Pairwise (fun a b => le a b = true)) :
    (insertLe le x l).Pairwise (fun a b => le a b = true) := by
  induction l with
  | nil => simp [insertLe]
  | cons y ys ih =>
    rcases List.pairwise_cons.mp h with ⟨hy, hys⟩
    by_cases hxy : le x y = true
    · rw [insertLe, if_pos hxy]
      refine List.pairwise_cons.mpr ⟨?_, h⟩
      intro b hb
      rcases List.mem_cons.mp hb with hb | hb
      · exact hb ▸ hxy
      · exact htrans x y b hxy (hy b hb)
    · rw [insertLe, if_neg hxy]
      refine List.pairwise_cons.mpr ⟨?_, ih hys⟩
      intro b hb
      rcases (mem_insertLe le x ys b).mp hb with hb | hb
      · exact hb ▸ (htot x y).resolve_left hxy
      · exact hy b hb

theorem pairwise_sortLe {α : Type} (le : α → α → Bool)
    (htot : ∀ a b, le a b = true ∨ le b a = true)
    (htrans : ∀ a b c, le a b = true → le b c = true → le a c = true)
    (l : List α) :
    (sortLe le l).Pairwise (fun a b => le a b = true) := by
  induction l with
  | nil => simp [sortLe]
  | cons x xs ih => exact pairwise_insertLe le htot htrans x (sortLe le xs) ih

/-! ### Filmography cache and co-star expansion -/

/-- Embedding of `getFilmography`: return the cached filmography if present,
otherwise issue the provider call (logged in `creditFetches`), memoize the
result on success, and propagate a provider failure. -/
def getFilmography (env : Env) (actorId : Nat) (st : SearchState) :
    SearchState × Except Unit (List FilmEntry) :=
  match lookup? st.cache actorId with
  | some credits => (st, .ok credits)
  | none =>
    let st1 : SearchState := { st with creditFetches := st.creditFetches ++ [actorId] }
    match env.getPersonCredits actorId with
    | .error e => (st1, .error e)
    | .ok credits => ({ st1 with cache := setK st1.cache actorId credits }, .ok credits)

/-- Embedding of `clearFilmographyCache`. -/
def clearFilmographyCache (st : SearchState) : SearchState := { st with cache := [] }

/-- Connecting-movie record stored per co-star in the expansion map
(movieId, movieTitle, movieYear). -/
structure CoStarInfo where
  movieId : Nat
  movieTitle : String
  movieYear : Option Int
deriving Repr, DecidableEq

/-- Embedding of `parseInt(movie.release_date.slice(0, 4))`: decimal value
of the leading digits of the first four characters.  A non-numeric prefix
yields NaN in JavaScript, modelled here as 0; no verified property depends
on that case. -/
def parseYear4 (s : String) : Int :=
  match (s.data.take 4).takeWhile (fun c => c.isDigit) with
  | [] => 0
  | ds => ((ds.foldl (fun acc c => acc * 10 + (c.toNat - 48)) 0 : Nat) : Int)

/-- Comparator of `filmography.cast.sort((a, b) => b.popularity - a.popularity)`:
keep `a` before `b` when `a.popularity ≥ b.popularity`. -/
def popDesc (a b : FilmEntry) : Bool := b.popularity ≤ a.popularity

/-- The movies actually expanded for one actor: entries with a (truthy)
release date, stably sorted by descending popularity, first 20 kept. -/
def topMovies (credits : List FilmEntry) : List FilmEntry :=
  (sortLe popDesc (credits.filter (fun m => m.release_date ≠ ""))).take 20

/-- Inner loop of `getCoStars` over the first 30 billed cast members of one
movie: record each cast member other than the expanding actor only if not
already present in the accumulated map. -/
def addCastMembers (actorId : Nat) (movie : FilmEntry) (year : Option Int) :
    List CastMember → List (Nat × CoStarInfo) → List (Nat × CoStarInfo)
  | [], acc => acc
  | c :: rest, acc =>
    if c.id ≠ actorId ∧ hasK acc c.id = false then
      addCastMembers actorId movie year rest
        (setK acc c.id ⟨movie.id, movie.title, year⟩)
    else
      addCastMembers actorId movie year rest acc

/-- Year recorded for a movie: `movie.release_date ?
parseInt(movie.release_date.slice(0, 4)) : null`. -/
def movieYear (movie : FilmEntry) : Option Int :=
  if movie.release_date ≠ "" then some (parseYear4 movie.release_date) else none

/-- Per-movie body of `getCoStars`: log and issue the cast fetch; on failure
skip the movie (the `try`/`catch`), on success fold its first 30 billed cast
members into the accumulated co-star map. -/
def processMovie (env : Env) (actorId : Nat) (movie : FilmEntry)
    (acc : List (Nat × CoStarInfo)) (st : SearchState) :
    SearchState × List (Nat × CoStarInfo) :=
  let st1 : SearchState := { st with castFetches := st.castFetches ++ [movie.id] }
  match env.getMovieCredits movie.id with
  | .error _ => (st1, acc)
  | .ok credits =>
    (st1, addCastMembers actorId movie (movieYear movie) (credits.take 30) acc)

/-- Fold of `processMovie` over the selected movies, in order. -/
def processMovies (env : Env) (actorId : Nat) :
    List FilmEntry → List (Nat × CoStarInfo) → SearchState →
    SearchState × List (Nat × CoStarInfo)
  | [], acc, st => (st, acc)
  | movie :: rest, acc, st =>
    match processMovie env actorId movie acc st with
    | (st1, acc1) => processMovies env actorId rest acc1 st1

/-- Embedding of `getCoStars`: fetch (or reuse) the filmography — a failure
here propagates — then accumulate co-stars over the top movies. -/
def getCoStars (env : Env) (actorId : Nat) (st : SearchState) :
    SearchState × Except Unit (List (Nat × CoStarInfo)) :=
  match getFilmography env actorId st with
  | (st1, .error e) => (st1, .error e)
  | (st1, .ok credits) =>
    match processMovies env actorId (topMovies credits) [] st1 with
    | (st2, coStars) => (st2, .ok coStars)

/-! ### Bidirectional BFS -/

/-- Movie data stored on a BFS node ({id, title, year}). -/
structure MovieRef where
  id : Nat
  title : String
  year : Option Int
deriving Repr, DecidableEq

/-- Embedding of `BFSNode`: actor id, parent link (none for a frontier
root) and the movie of the edge leading into this node from its parent
(none for a frontier root). -/
inductive BFSNode where
  | mk (actorId : Nat) (parent : Option BFSNode) (movie : Option MovieRef)

def BFSNode.actorId : BFSNode → Nat
  | .mk a _ _ => a

def BFSNode.parent : BFSNode → Option BFSNode
  | .mk _ p _ => p

def BFSNode.movie : BFSNode → Option MovieRef
  | .mk _ _ m => m

/-- Actor ids along the parent chain, this node first, root last. -/
def BFSNode.chainIds : BFSNode → List Nat
  | .mk a p _ =>
    a :: (match p with
          | none => []
          | some q => q.chainIds)

/-- Pairs (actorId, movie) along the parent chain, this node first; this is
the data the reconstruction walks collect. -/
def BFSNode.chainPairs : BFSNode → List (Nat × Option MovieRef)
  | .mk a p m =>
    (a, m) :: (match p with
               | none => []
               | some q => q.chainPairs)

/-- Embedding of the `meetingPoint` record. -/
structure MeetingPoint where
  actorId : Nat
  movieFromA : Option MovieRef
  movieFromB : Option MovieRef
deriving Repr

/-- Mutable state of the `while` loop: the two queues, the two visited
maps, the two degree counters and the module state. -/
structure LoopState where
  queueA : List BFSNode
  queueB : List BFSNode
  visitedA : List (Nat × BFSNode)
  visitedB : List (Nat × BFSNode)
  degA : Nat
  degB : Nat
  st : SearchState

/-- Inner `for (const [coStarId, movieInfo] of coStars)` loop of one level
expansion, shared between the two sides: `visitedCur`/`queueCur` belong to
the side being expanded, `visitedOpp` to the opposite side.  On a meeting
the loop records the co-star in `visitedCur` (for path reconstruction) and
stops; the returned meeting triple is (co-star id, movie from the current
side, movie stored on the opposite side's node). -/
def processCoStars (current : BFSNode) :
    List (Nat × CoStarInfo) → List (Nat × BFSNode) → List (Nat × BFSNode) →
    List BFSNode →
    List (Nat × BFSNode) × List BFSNode × Option (Nat × Option MovieRef × Option MovieRef)
  | [], visitedCur, _, queueCur => (visitedCur, queueCur, none)
  | (coStarId, info) :: rest, visitedCur, visitedOpp, queueCur =>
    if hasK visitedOpp coStarId then
      let movieCur : Option MovieRef := some ⟨info.movieId, info.movieTitle, info.movieYear⟩
      let movieOpp : Option MovieRef :=
        match lookup? visitedOpp coStarId with
        | some n => n.movie
        | none => none
      (setK visitedCur coStarId (BFSNode.mk coStarId (some current) movieCur),
       queueCur, some (coStarId, movieCur, movieOpp))
    else if hasK visitedCur coStarId = false then
      let node : BFSNode :=
        BFSNode.mk coStarId (some current) (some ⟨info.movieId, info.movieTitle, info.movieYear⟩)
      processCoStars current rest (setK visitedCur coStarId node) visitedOpp
        (queueCur ++ [node])
    else
      processCoStars current rest visitedCur visitedOpp queueCur

/-- One level expansion (`for (let i = 0; i < currentLevelSize; i++)`):
process `n` nodes from the front of the current queue; each node's co-star
expansion may grow the queue, find a meeting (which stops the level), or
propagate a filmography-fetch failure. -/
def expandLevel (env : Env) :
    Nat → List BFSNode → List (Nat × BFSNode) → List (Nat × BFSNode) → SearchState →
    SearchState ×
      Except Unit
        (List BFSNode × List (Nat × BFSNode) × Option (Nat × Option MovieRef × Option MovieRef))
  | 0, queueCur, visitedCur, _, st => (st, .ok (queueCur, visitedCur, none))
  | _ + 1, [], visitedCur, _, st => (st, .ok ([], visitedCur, none))
  | n + 1, current :: queueRest, visitedCur, visitedOpp, st =>
    match getCoStars env current.actorId st with
    | (st1, .error e) => (st1, .error e)
    | (st1, .ok coStars) =>
      match processCoStars current coStars visitedCur visitedOpp queueRest with
      | (visitedCur1, queue1, some meet) => (st1, .ok (queue1, visitedCur1, some meet))
      | (visitedCur1, queue1, none) =>
        expandLevel env n queue1 visitedCur1 visitedOpp st1

/-- Outcome of one iteration of the `while` loop. -/
inductive StepOut where
  | next (s : LoopState)
  | noMeet (s : LoopState)
  | meet (mp : MeetingPoint) (s : LoopState)
  | fail (st : SearchState)

/-- Second half of a loop iteration: the B-side expansion (reached only
when the A side found no meeting point, so the `!meetingPoint` guard of the
source is vacuously true here). -/
def stepB (env : Env) (s : LoopState) : StepOut :=
  if s.queueB.isEmpty then .next s
  else
    match expandLevel env s.queueB.length s.queueB s.visitedB s.visitedA s.st with
    | (st1, .error _) => .fail st1
    | (st1, .ok (queueB1, visitedB1, some (cid, movieCur, movieOpp))) =>
      .meet ⟨cid, movieOpp, movieCur⟩
        { s with queueB := queueB1, visitedB := visitedB1, degB := s.degB + 1, st := st1 }
    | (st1, .ok (queueB1, visitedB1, none)) =>
      .next { s with queueB := queueB1, visitedB := visitedB1, degB := s.degB + 1, st := st1 }

/-- One full iteration of the `while` loop: termination tests, then the
A-side expansion when `queueA` is non-empty and `degreesFromA <=
degreesFromB`, then (if no meeting point was found) the B-side expansion
when `queueB` is non-empty. -/
def searchStep (env : Env) (maxDegrees : Nat) (s : LoopState) : StepOut :=
  if s.queueA.isEmpty ∧ s.queueB.isEmpty then .noMeet s
  else if maxDegrees ≤ s.degA + s.degB then .noMeet s
  else if s.queueA.isEmpty = false ∧ s.degA ≤ s.degB then
    match expandLevel env s.queueA.length s.queueA s.visitedA s.visitedB s.st with
    | (st1, .error _) => .fail st1
    | (st1, .ok (queueA1, visitedA1, some (cid, movieCur, movieOpp))) =>
      .meet ⟨cid, movieCur, movieOpp⟩
        { s with queueA := queueA1, visitedA := visitedA1, degA := s.degA + 1, st := st1 }
    | (st1, .ok (queueA1, visitedA1, none)) =>
      stepB env { s with queueA := queueA1, visitedA := visitedA1, degA := s.degA + 1, st := st1 }
  else
    stepB env s

/-- Result of running the loop to completion under a fuel bound. -/
inductive SearchOut where
  | diverged (s : LoopState)
  | noMeet (s : LoopState)
  | meet (mp : MeetingPoint) (s : LoopState)
  | fail (st : SearchState)

/-- Fuel-indexed iteration of `searchStep`; `diverged` reports that the
fuel ran out with the loop still running. -/
def searchLoop (env : Env) (maxDegrees : Nat) : Nat → LoopState → SearchOut
  | 0, s => .diverged s
  | fuel + 1, s =>
    match searchStep env maxDegrees s with
    | .next s1 => searchLoop env maxDegrees fuel s1
    | .noMeet s1 => .noMeet s1
    | .meet mp s1 => .meet mp s1
    | .fail st1 => .fail st1

/-! ### Path reconstruction, enrichment and the top-level entry point -/

/-- Display metadata attached to a path actor during enrichment. -/
structure ActorInfo where
  name : String
  profilePath : Option String
  isDeceased : Bool
deriving Repr, DecidableEq

/-- Element of `ConnectionResult.path.actor`. -/
structure PathActor where
  id : Nat
  name : String
  profilePath : Option String
  isDeceased : Bool
deriving Repr, DecidableEq

/-- Element of `ConnectionResult.path.movie`; `posterPath` is never
resolved by the reconstruction (always none). -/
structure PathMovie where
  id : Nat
  title : String
  year : Option Int
  posterPath : Option String
deriving Repr, DecidableEq

/-- One segment of the produced path. -/
structure PathSegment where
  actor : PathActor
  movie : Option PathMovie
deriving Repr, DecidableEq

/-- Detailed deceased record on the path. -/
structure DeceasedOnPath where
  id : Nat
  name : String
  deathday : Option String
  causeOfDeath : Option String
  ageAtDeath : Option Int
deriving Repr, DecidableEq

/-- Embedding of `ConnectionResult`; `degrees` is an integer because the
source computes `finalPath.length - 1`. -/
structure ConnectionResult where
  degrees : Int
  path : List PathSegment
  totalDeceased : Nat
  deceasedOnPath : List DeceasedOnPath
deriving Repr, DecidableEq

/-- Per-actor detail fetch of the enrichment stage: a failed lookup is
replaced by a placeholder (synthetic name, no image, not deceased). -/
def fetchActorDetails (env : Env) :
    List Nat → List (Nat × ActorInfo) → List (Nat × ActorInfo)
  | [], acc => acc
  | actorId :: rest, acc =>
    let info : ActorInfo :=
      match env.getPersonDetails actorId with
      | .ok p => ⟨p.name, p.profile_path, p.deathday.isSome⟩
      | .error _ => ⟨"Actor " ++ toString actorId, none, false⟩
    fetchActorDetails env rest (setK acc actorId info)

/-- Final assembly of the path: the movie displayed at position `i` is the
movie stored on the segment at position `i + 1` (null for the last
segment), and actor data comes from the enrichment map. -/
def buildFinalPath (details : List (Nat × ActorInfo)) :
    List (Nat × Option MovieRef) → List PathSegment
  | [] => []
  | (actorId, _) :: rest =>
    let info : ActorInfo := (lookup? details actorId).getD ⟨"", none, false⟩
    let connecting : Option PathMovie :=
      match rest with
      | (_, some m) :: _ => some ⟨m.id, m.title, m.year, none⟩
      | _ => none
    ⟨⟨actorId, info.name, info.profilePath, info.isDeceased⟩, connecting⟩ ::
      buildFinalPath details rest

/-- Observable outcome of one `findConnection` call: a connection, the
`null` no-connection outcome, a propagated exception, or — fuel exhausted —
a `while` loop that never finishes. -/
inductive Outcome where
  | result (r : ConnectionResult)
  | noConnection
  | error
  | diverge

/-- Initial loop state of the bidirectional BFS: both queues hold their
root, both visited maps are seeded with them, and the module cache has just
been cleared for a fresh search. -/
def initLoopState (actorAId actorBId : Nat) (st : SearchState) : LoopState :=
  ⟨[BFSNode.mk actorAId none none], [BFSNode.mk actorBId none none],
   [(actorAId, BFSNode.mk actorAId none none)], [(actorBId, BFSNode.mk actorBId none none)],
   0, 0, clearFilmographyCache st⟩

/-- Ids and movies of the combined reconstructed path for meeting point
`mp`: the A-side walk from the meeting node to A's root (reversed to run
root-first), followed by the B-side walk starting one step past the
meeting node. -/
def combinedPath (mp : MeetingPoint) (s : LoopState) : List (Nat × Option MovieRef) :=
  (match lookup? s.visitedA mp.actorId with
   | some n => n.chainPairs.reverse
   | none => []) ++
  (match lookup? s.visitedB mp.actorId with
   | some n =>
     match n.parent with
     | some p => p.chainPairs
     | none => []
   | none => [])

/-- Success branch of `findConnection` after a meeting point was found
(lines 291–398 of the source): path reconstruction, enrichment, the
deceased-records bulk query and final assembly. -/
def meetResult (env : Env) (mp : MeetingPoint) (s : LoopState) : SearchState × Outcome :=
  let combined := combinedPath mp s
  let details := fetchActorDetails env (combined.map (fun p => p.1)) []
  let finalPath := buildFinalPath details combined
  let deceasedIds :=
    (finalPath.filter (fun seg => seg.actor.isDeceased)).map (fun seg => seg.actor.id)
  let st2 : SearchState :=
    { s.st with deceasedQueries := s.st.deceasedQueries ++ [deceasedIds] }
  match env.getDeceasedPersons deceasedIds with
  | .error _ => (st2, .error)
  | .ok deceasedMap =>
    let deceased : List DeceasedOnPath :=
      deceasedIds.filterMap (fun actorId =>
        (lookup? deceasedMap actorId).map (fun d =>
          ⟨d.tmdb_id, d.name, d.deathday, d.cause_of_death, d.age_at_death⟩))
    (clearFilmographyCache st2,
     .result
       ⟨(finalPath.length : Int) - 1, finalPath,
        (finalPath.filter (fun seg => seg.actor.isDeceased)).length, deceased⟩)

/-- Embedding of `findConnection(actorAId, actorBId, options)`.  `opts`
models the optional `maxDegrees` field (defaulted to 6), `fuel` bounds the
number of `while` iterations the model is allowed to run, and `st` is the
module state at entry. -/
def findConnection (env : Env) (actorAId actorBId : Nat) (opts : Option Nat)
    (fuel : Nat) (st : SearchState) : SearchState × Outcome :=
  let maxDegrees := opts.getD 6
  if actorAId = actorBId then
    match env.getPersonDetails actorAId with
    | .error _ => (st, .error)
    | .ok p =>
      (st, .result
        ⟨0,
         [⟨⟨p.id, p.name, p.profile_path, p.deathday.isSome⟩, none⟩],
         if p.deathday.isSome then 1 else 0,
         []⟩)
  else
    match searchLoop env maxDegrees fuel (initLoopState actorAId actorBId st) with
    | .diverged s => (s.st, .diverge)
    | .fail st1 => (st1, .error)
    | .noMeet s => (clearFilmographyCache s.st, .noConnection)
    | .meet mp s => meetResult env mp s

theorem meetResult_creditFetches (env : Env) (mp : MeetingPoint) (s : LoopState) :
    (meetResult env mp s).1.creditFetches = s.st.creditFetches := by
  rw [meetResult]
  rcases hdp : env.getDeceasedPersons
      ((buildFinalPath
          (fetchActorDetails env ((combinedPath mp s).map (fun p => p.1)) [])
          (combinedPath mp s)).filter (fun seg => seg.actor.isDeceased)
        |>.map (fun seg => seg.actor.id)) with e | dm <;>
    simp [hdp, clearFilmographyCache]

theorem meetResult_ne_noConnection (env : Env) (mp : MeetingPoint) (s : LoopState) :
    (meetResult env mp s).2 ≠ Outcome.noConnection := by
  rw [meetResult]
  rcases hdp : env.getDeceasedPersons
      ((buildFinalPath
          (fetchActorDetails env ((combinedPath mp s).map (fun p => p.1)) [])
          (combinedPath mp s)).filter (fun seg => seg.actor.isDeceased)
        |>.map (fun seg => seg.actor.id)) with e | dm <;>
    simp [hdp]

theorem meetResult_path (env : Env) (mp : MeetingPoint) (s : LoopState)
    (r : ConnectionResult) (h : (meetResult env mp s).2 = .result r) :
    r.path = buildFinalPath
      (fetchActorDetails env ((combinedPath mp s).map (fun p => p.1)) [])
      (combinedPath mp s) := by
  rw [meetResult] at h
  rcases hdp : env.getDeceasedPersons
      ((buildFinalPath
          (fetchActorDetails env ((combinedPath mp s).map (fun p => p.1)) [])
          (combinedPath mp s)).filter (fun seg => seg.actor.isDeceased)
        |>.map (fun seg => seg.actor.id)) with e | dm
  · rw [hdp] at h
    cases h
  · rw [hdp] at h
    simp only [Outcome.result.injEq] at h
    rw [← h]

/-! ### Concrete provider environments used by the claim checks -/

/-- Loop state reached after a `.next` step (with a default for the other
outcomes); used to name intermediate states of concrete runs. -/
def stepState (o : StepOut) (dflt : LoopState) : LoopState :=
  match o with
  | .next s => s
  | .noMeet s => s
  | .meet _ s => s
  | .fail _ => dflt

/-- Filmography entries of the concrete scenarios. -/
def F10 : FilmEntry := ⟨10, "M10", "2000", 5⟩

def F20 : FilmEntry := ⟨20, "M20", "2001", 4⟩

def F30 : FilmEntry := ⟨30, "M30", "2002", 3⟩

/-- Two-hop scenario of the specification: Actor 1 and Actor 3 share Movie
10, Actor 3 and Actor 2 share Movie 20, and there are no other links. -/
def envTwoHop : Env :=
  { getPersonCredits := fun actorId =>
      if actorId = 1 then .ok [F10]
      else if actorId = 2 then .ok [F20]
      else if actorId = 3 then .ok [F10, F20]
      else .ok []
  , getMovieCredits := fun movieId =>
      if movieId = 10 then .ok [⟨1⟩, ⟨3⟩]
      else if movieId = 20 then .ok [⟨3⟩, ⟨2⟩]
      else .error ()
  , getPersonDetails := fun actorId => .ok ⟨actorId, "P" ++ toString actorId, none, none⟩
  , getDeceasedPersons := fun _ => .ok [] }

/-- Scenario with a dead B-side frontier: Actor 2 has an empty filmography
(no co-stars at all), while the A side keeps growing through the chain
1 — Movie 10 — 3 — Movie 20 — 4.  The true distance between 1 and 2 is
infinite, in particular greater than any degree bound. -/
def envDeadEnd : Env :=
  { getPersonCredits := fun actorId =>
      if actorId = 1 then .ok [F10]
      else if actorId = 3 then .ok [F10, F20]
      else if actorId = 4 then .ok [F20]
      else .ok []
  , getMovieCredits := fun movieId =>
      if movieId = 10 then .ok [⟨1⟩, ⟨3⟩]
      else if movieId = 20 then .ok [⟨3⟩, ⟨4⟩]
      else .error ()
  , getPersonDetails := fun actorId => .ok ⟨actorId, "P" ++ toString actorId, none, none⟩
  , getDeceasedPersons := fun _ => .ok [] }

/-- Three-hop chain 1 — Movie 10 — 5 — Movie 20 — 6 — Movie 30 — 2; in the
first loop iteration both frontiers expand without meeting. -/
def envChain3 : Env :=
  { getPersonCredits := fun actorId =>
      if actorId = 1 then .ok [F10]
      else if actorId = 5 then .ok [F10, F20]
      else if actorId = 6 then .ok [F20, F30]
      else if actorId = 2 then .ok [F30]
      else .ok []
  , getMovieCredits := fun movieId =>
      if movieId = 10 then .ok [⟨1⟩, ⟨5⟩]
      else if movieId = 20 then .ok [⟨5⟩, ⟨6⟩]
      else if movieId = 30 then .ok [⟨6⟩, ⟨2⟩]
      else .error ()
  , getPersonDetails := fun actorId => .ok ⟨actorId, "P" ++ toString actorId, none, none⟩
  , getDeceasedPersons := fun _ => .ok [] }

/-- Environment whose filmography lookup fails for Actor 1 while every
other provider call succeeds. -/
def envCreditsFail : Env :=
  { getPersonCredits := fun actorId =>
      if actorId = 1 then .error () else .ok []
  , getMovieCredits := fun _ => .ok []
  , getPersonDetails := fun actorId => .ok ⟨actorId, "P" ++ toString actorId, none, none⟩
  , getDeceasedPersons := fun _ => .ok [] }

/-! ### C1 — the concrete two-hop scenario -/

/-- C1: in the two-hop graph (1 and 3 share Movie 10, 3 and 2 share Movie
20), `findConnection(1, 2, {maxDegrees: 6})` does return degrees 2 over the
actors 1, 3, 2 — but the produced segments are 1 ↦ Movie 10, 3 ↦ null,
2 ↦ null: the connecting movie of actor 3 (Movie 20) is dropped, because
the B-side reconstruction walk starts one step past the meeting node and
the displayed movie of a segment is read off the following segment, whose
B-side node stores the edge away from the meeting point.  The claimed path
[1, (movie10)→3, (movie20)→2] is therefore not produced: the claim's
expectation that every non-final actor carries the movie it shares with the
next actor fails at actor 3. -/
theorem findConnection_twoHop_run :
    (findConnection envTwoHop 1 2 (some 6) 9 SearchState.empty).2 =
      Outcome.result
        ⟨2,
         [⟨⟨1, "P1", none, false⟩, some ⟨10, "M10", some 2000, none⟩⟩,
          ⟨⟨3, "P3", none, false⟩, none⟩,
          ⟨⟨2, "P2", none, false⟩, none⟩],
         0, []⟩ := by rfl

/-! ### C3 — dead frontier: the loop never terminates -/

/-- Unfolding lemma for one loop iteration. -/
theorem searchLoop_succ (env : Env) (maxD fuel : Nat) (s : LoopState) :
    searchLoop env maxD (fuel + 1) s =
      (match searchStep env maxD s with
       | .next s1 => searchLoop env maxD fuel s1
       | .noMeet s1 => .noMeet s1
       | .meet mp s1 => .meet mp s1
       | .fail st1 => .fail st1) := rfl

/-- Initial loop state of the dead-frontier run. -/
def deadEndS0 : LoopState := initLoopState 1 2 SearchState.empty

/-- Loop state after one iteration of the dead-frontier run. -/
def deadEndS1 : LoopState := stepState (searchStep envDeadEnd 6 deadEndS0) deadEndS0

/-- Loop state after two iterations of the dead-frontier run; this state is
a fixed point of the loop body: `queueA` is non-empty, `queueB` is empty
and `degreesFromA > degreesFromB`, so neither side expands while the
`while` condition still holds. -/
def deadEndS2 : LoopState := stepState (searchStep envDeadEnd 6 deadEndS1) deadEndS1

theorem searchStep_deadEndS0 : searchStep envDeadEnd 6 deadEndS0 = .next deadEndS1 := rfl

theorem searchStep_deadEndS1 : searchStep envDeadEnd 6 deadEndS1 = .next deadEndS2 := rfl

theorem searchStep_deadEndS2 : searchStep envDeadEnd 6 deadEndS2 = .next deadEndS2 := rfl

theorem searchLoop_deadEndS2 :
    ∀ fuel, searchLoop envDeadEnd 6 fuel deadEndS2 = .diverged deadEndS2
  | 0 => rfl
  | fuel + 1 => by
    rw [searchLoop_succ, searchStep_deadEndS2]
    exact searchLoop_deadEndS2 fuel

theorem searchLoop_deadEndS0 :
    ∀ fuel, searchLoop envDeadEnd 6 fuel deadEndS0 = .diverged deadEndS0 ∨
      searchLoop envDeadEnd 6 fuel deadEndS0 = .diverged deadEndS1 ∨
      searchLoop envDeadEnd 6 fuel deadEndS0 = .diverged deadEndS2
  | 0 => Or.inl rfl
  | 1 => Or.inr (Or.inl rfl)
  | fuel + 2 => by
    rw [searchLoop_succ, searchStep_deadEndS0]
    show (searchLoop envDeadEnd 6 (fuel + 1) deadEndS1 = _) ∨ _
    rw [searchLoop_succ, searchStep_deadEndS1]
    exact Or.inr (Or.inr (searchLoop_deadEndS2 fuel))

/-- C3: the specification requires the no-connection outcome (`null`)
whenever the true shortest distance exceeds `maxDegrees`, but on the
dead-frontier graph (Actor 2 has no co-stars, so the distance from 1 to 2
is infinite) `findConnection(1, 2, {maxDegrees: 6})` never returns at all:
after two iterations the loop state repeats forever (`queueA` non-empty,
`queueB` empty, `degreesFromA = 2 > 1 = degreesFromB`, bound not reached),
so for every fuel allowance the loop is still running.  This confirms the
code, not the claim, is at fault: the search neither returns `null` nor
any result. -/
theorem findConnection_deadEnd_diverges (fuel : Nat) :
    (findConnection envDeadEnd 1 2 (some 6) fuel SearchState.empty).2 = Outcome.diverge := by
  have hne : (1 : Nat) ≠ 2 := by decide
  have h := searchLoop_deadEndS0 fuel
  rcases h with h | h | h <;>
    simp [findConnection, hne, deadEndS0] at h ⊢ <;> rw [h]

/-! ### C4 — both frontiers expand within one loop iteration -/

/-- Loop state after the first iteration of the three-hop-chain run. -/
def chain3S1 : LoopState :=
  stepState (searchStep envChain3 6 (initLoopState 1 2 SearchState.empty)) (initLoopState 1 2 SearchState.empty)

/-- C4 counterexample: in the very first iteration of the loop on the
three-hop chain — a single check of the degree bound — the A side expands
(degreesFromA becomes 1) and then the B side also expands (degreesFromB
becomes 1), refuting the claim that the two sides are never both expanded
within a single check of the degree bound. -/
theorem searchStep_chain3_expands_both :
    searchStep envChain3 6 (initLoopState 1 2 SearchState.empty) = .next chain3S1 ∧
      chain3S1.degA = 1 ∧ chain3S1.degB = 1 :=
  ⟨rfl, rfl, rfl⟩

/-- C4 amended: one loop iteration checks the degree bound once; under
that single check the A side is expanded when `queueA` is non-empty and
`degreesFromA <= degreesFromB`, and — when the A expansion finds no meeting
point — the B side is then also expanded in the same iteration whenever
`queueB` is non-empty, incrementing both degree counters within a single
check of the degree bound. -/
theorem searchStep_expands_both (env : Env) (maxD : Nat) (s : LoopState)
    (st1 : SearchState) (qA1 : List BFSNode) (vA1 : List (Nat × BFSNode))
    (hA : s.queueA.isEmpty = false) (hd : s.degA ≤ s.degB)
    (hbound : s.degA + s.degB < maxD)
    (hexp : expandLevel env s.queueA.length s.queueA s.visitedA s.visitedB s.st =
      (st1, .ok (qA1, vA1, none))) :
    searchStep env maxD s =
      stepB env { s with queueA := qA1, visitedA := vA1, degA := s.degA + 1, st := st1 } ∧
    (s.queueB.isEmpty = false →
      (∀ s2, stepB env { s with queueA := qA1, visitedA := vA1, degA := s.degA + 1, st := st1 } =
          .next s2 → s2.degA = s.degA + 1 ∧ s2.degB = s.degB + 1) ∧
      (∀ mp s2, stepB env { s with queueA := qA1, visitedA := vA1, degA := s.degA + 1, st := st1 } =
          .meet mp s2 → s2.degA = s.degA + 1 ∧ s2.degB = s.degB + 1)) := by
  constructor
  · rw [searchStep]
    rw [if_neg (by simp [hA]), if_neg (Nat.not_le.mpr hbound), if_pos ⟨hA, hd⟩, hexp]
  · intro hB
    rcases hBexp : expandLevel env s.queueB.length s.queueB s.visitedB vA1 st1 with ⟨stB, resB⟩
    constructor
    · intro s2 h2
      rw [stepB, if_neg (by simp [hB])] at h2
      simp only at h2
      rw [hBexp] at h2
      cases resB with
      | error e => exact absurd h2 (by simp)
      | ok triple =>
        obtain ⟨qB1, vB1, meet?⟩ := triple
        cases meet? with
        | some m => exact absurd h2 (by simp)
        | none =>
          cases h2
          exact ⟨rfl, rfl⟩
    · intro mp s2 h2
      rw [stepB, if_neg (by simp [hB])] at h2
      simp only at h2
      rw [hBexp] at h2
      cases resB with
      | error e => exact absurd h2 (by simp)
      | ok triple =>
        obtain ⟨qB1, vB1, meet?⟩ := triple
        cases meet? with
        | some m =>
          obtain ⟨cid, mc, mo⟩ := m
          cases h2
          exact ⟨rfl, rfl⟩
        | none => exact absurd h2 (by simp)

/-- Initial loop state of the three-hop-chain run. -/
def chain3S0 : LoopState := initLoopState 1 2 SearchState.empty

/-- Result of the first A-side level expansion of the three-hop-chain run. -/
def chain3ExpA : SearchState ×
    Except Unit
      (List BFSNode × List (Nat × BFSNode) × Option (Nat × Option MovieRef × Option MovieRef)) :=
  expandLevel envChain3 chain3S0.queueA.length chain3S0.queueA chain3S0.visitedA
    chain3S0.visitedB chain3S0.st

/-- Module state after that expansion. -/
def chain3St1 : SearchState := chain3ExpA.1

/-- A-side queue after that expansion. -/
def chain3QA1 : List BFSNode :=
  match chain3ExpA.2 with
  | .ok (q, _, _) => q
  | .error _ => []

/-- A-side visited map after that expansion. -/
def chain3VA1 : List (Nat × BFSNode) :=
  match chain3ExpA.2 with
  | .ok (_, v, _) => v
  | .error _ => []

/-- Witness for the amended C4 at the concrete three-hop chain. -/
theorem searchStep_expands_both_witness :
    searchStep envChain3 6 chain3S0 =
      stepB envChain3
        { chain3S0 with queueA := chain3QA1, visitedA := chain3VA1,
                        degA := chain3S0.degA + 1, st := chain3St1 } ∧
    (chain3S0.queueB.isEmpty = false →
      (∀ s2, stepB envChain3
          { chain3S0 with queueA := chain3QA1, visitedA := chain3VA1,
                          degA := chain3S0.degA + 1, st := chain3St1 } = .next s2 →
          s2.degA = chain3S0.degA + 1 ∧ s2.degB = chain3S0.degB + 1) ∧
      (∀ mp s2, stepB envChain3
          { chain3S0 with queueA := chain3QA1, visitedA := chain3VA1,
                          degA := chain3S0.degA + 1, st := chain3St1 } = .meet mp s2 →
          s2.degA = chain3S0.degA + 1 ∧ s2.degB = chain3S0.degB + 1)) :=
  searchStep_expands_both envChain3 6 chain3S0 chain3St1 chain3QA1 chain3VA1
    rfl (by decide) (by decide) rfl

/-! ### C7 — identity search -/

/-- C7: `findConnection(x, x, opts)` answers immediately from the person
detail record: degrees 0, a single segment with no connecting movie, and an
unchanged module state — no BFS expansion, no filmography fetch. -/
theorem findConnection_identity (env : Env) (x : Nat) (opts : Option Nat) (fuel : Nat)
    (st : SearchState) (p : PersonDetails) (h : env.getPersonDetails x = .ok p) :
    findConnection env x x opts fuel st =
      (st, .result
        ⟨0, [⟨⟨p.id, p.name, p.profile_path, p.deathday.isSome⟩, none⟩],
         if p.deathday.isSome then 1 else 0, []⟩) := by
  simp [findConnection, h]

/-- Witness for C7 at a concrete input. -/
theorem findConnection_identity_witness :
    envTwoHop.getPersonDetails 1 = .ok ⟨1, "P1", none, none⟩ ∧
      findConnection envTwoHop 1 1 (some 6) 3 SearchState.empty =
        (SearchState.empty, .result ⟨0, [⟨⟨1, "P1", none, false⟩, none⟩], 0, []⟩) :=
  ⟨rfl, findConnection_identity envTwoHop 1 (some 6) 3 SearchState.empty ⟨1, "P1", none, none⟩ rfl⟩

/-! ### C2 — provider failures during expansion -/

/-- C2 counterexample: when the filmography fetch for Actor 1 fails, the
search between the distinct ids 1 and 2 aborts with the propagated provider
error instead of continuing with partial data. -/
theorem findConnection_creditsFail_errors :
    (findConnection envCreditsFail 1 2 (some 6) 9 SearchState.empty).2 = Outcome.error := rfl

/-- C2 amended: a movie-cast fetch failure never aborts an expansion step —
`getCoStars` fails exactly when the filmography fetch itself fails; every
cast-fetch failure is skipped and the step returns the co-stars collected
from the remaining movies. -/
theorem getCoStars_error_iff_filmography_error (env : Env) (actorId : Nat) (st : SearchState) :
    (getCoStars env actorId st).2 = .error () ↔ (getFilmography env actorId st).2 = .error () := by
  rcases h : getFilmography env actorId st with ⟨st1, res⟩
  cases res with
  | error e =>
    cases e
    simp [getCoStars, h]
  | ok credits =>
    rcases h2 : processMovies env actorId (topMovies credits) [] st1 with ⟨st2, coStars⟩
    simp [getCoStars, h, h2]

/-! ### C5 / C6 — characterization of one expansion step -/

/-- Co-star record produced from one movie. -/
def infoOf (movie : FilmEntry) : CoStarInfo := ⟨movie.id, movie.title, movieYear movie⟩

/-- Decides whether one movie contributes `c` as a co-star of `actorId`:
its cast fetch succeeds, `c` is among the first 30 billed cast members and
`c` is not the expanding actor. -/
def eligibleB (env : Env) (actorId c : Nat) (movie : FilmEntry) : Bool :=
  match env.getMovieCredits movie.id with
  | .ok credits => decide (c ≠ actorId ∧ c ∈ (credits.take 30).map CastMember.id)
  | .error _ => false

theorem lookup?_addCastMembers_some (actorId : Nat) (movie : FilmEntry) (year : Option Int)
    (cast : List CastMember) (acc : List (Nat × CoStarInfo)) (c : Nat) (v : CoStarInfo)
    (h : lookup? acc c = some v) :
    lookup? (addCastMembers actorId movie year cast acc) c = some v := by
  induction cast generalizing acc with
  | nil => simpa [addCastMembers] using h
  | cons c0 rest ih =>
    rw [addCastMembers]
    by_cases hcond : c0.id ≠ actorId ∧ hasK acc c0.id = false
    · rw [if_pos hcond]
      refine ih _ ?_
      have hne : c0.id ≠ c := by
        intro he
        rw [he] at hcond
        simp [hasK, h] at hcond
      rw [lookup?_setK, if_neg hne]
      exact h
    · rw [if_neg hcond]
      exact ih _ h

theorem lookup?_addCastMembers_none (actorId : Nat) (movie : FilmEntry) (year : Option Int)
    (cast : List CastMember) (acc : List (Nat × CoStarInfo)) (c : Nat)
    (h : lookup? acc c = none) :
    lookup? (addCastMembers actorId movie year cast acc) c =
      (if c ≠ actorId ∧ c ∈ cast.map CastMember.id
       then some ⟨movie.id, movie.title, year⟩
       else none) := by
  induction cast generalizing acc with
  | nil => simpa [addCastMembers] using h
  | cons c0 rest ih =>
    rw [addCastMembers]
    by_cases hcond : c0.id ≠ actorId ∧ hasK acc c0.id = false
    · rw [if_pos hcond]
      by_cases hc : c0.id = c
      · have hs : lookup? (setK acc c0.id ⟨movie.id, movie.title, year⟩) c =
            some ⟨movie.id, movie.title, year⟩ := by
          rw [lookup?_setK, if_pos hc]
        rw [lookup?_addCastMembers_some actorId movie year rest _ c _ hs]
        rw [if_pos ⟨hc ▸ hcond.1, by simp [← hc]⟩]
      · have hs : lookup? (setK acc c0.id ⟨movie.id, movie.title, year⟩) c = none := by
          rw [lookup?_setK, if_neg hc]
          exact h
        rw [ih _ hs]
        have hmem : (c ∈ (c0 :: rest).map CastMember.id) ↔ (c ∈ rest.map CastMember.id) := by
          simp [List.mem_cons, fun he : c0.id = c => hc he]
          intro he
          exact absurd he.symm hc
        by_cases hfin : c ≠ actorId ∧ c ∈ rest.map CastMember.id
        · rw [if_pos hfin, if_pos ⟨hfin.1, hmem.mpr hfin.2⟩]
        · rw [if_neg hfin, if_neg (by
            intro hcon
            exact hfin ⟨hcon.1, hmem.mp hcon.2⟩)]
    · rw [if_neg hcond, ih _ h]
      by_cases hc : c0.id = c
      · have hagree : ¬ (c ≠ actorId ∧ c ∈ (c0 :: rest).map CastMember.id) ∨
            c ∈ rest.map CastMember.id := by
          rcases Decidable.not_and_iff_or_not.mp hcond with h1 | h2
          · exact Or.inl (fun hcon => h1 (hc ▸ hcon.1))
          · exfalso
            have : hasK acc c0.id = true := by
              cases hk : hasK acc c0.id with
              | true => rfl
              | false => exact absurd hk h2
            rw [hc] at this
            simp [hasK, h] at this
        rcases hagree with h1 | h2
        · rw [if_neg h1, if_neg (by
            intro hcon
            exact h1 ⟨hcon.1, by simp [hcon.2]⟩)]
        · by_cases hfin : c ≠ actorId
          · rw [if_pos ⟨hfin, h2⟩, if_pos ⟨hfin, by simp [h2]⟩]
          · rw [if_neg (fun hcon => hfin hcon.1), if_neg (fun hcon => hfin hcon.1)]
      · have hmem : (c ∈ (c0 :: rest).map CastMember.id) ↔ (c ∈ rest.map CastMember.id) := by
          simp [List.mem_cons]
          intro he
          exact absurd he.symm hc
        by_cases hfin : c ≠ actorId ∧ c ∈ rest.map CastMember.id
        · rw [if_pos hfin, if_pos ⟨hfin.1, hmem.mpr hfin.2⟩]
        · rw [if_neg hfin, if_neg (fun hcon => hfin ⟨hcon.1, hmem.mp hcon.2⟩)]

theorem lookup?_processMovie (env : Env) (actorId : Nat) (movie : FilmEntry)
    (acc : List (Nat × CoStarInfo)) (st : SearchState) (c : Nat) :
    lookup? (processMovie env actorId movie acc st).2 c =
      (match lookup? acc c with
       | some v => some v
       | none => if eligibleB env actorId c movie then some (infoOf movie) else none) := by
  rcases hm : env.getMovieCredits movie.id with e | credits
  · rcases hl : lookup? acc c with _ | v <;>
      simp [processMovie, hm, eligibleB, hl]
  · rcases hl : lookup? acc c with _ | v
    · rw [show (processMovie env actorId movie acc st).2 =
          addCastMembers actorId movie (movieYear movie) (credits.take 30) acc by
            simp [processMovie, hm]]
      rw [lookup?_addCastMembers_none actorId movie (movieYear movie) _ acc c hl]
      simp only [eligibleB, hm, hl]
      by_cases hcond : c ≠ actorId ∧ c ∈ (credits.take 30).map CastMember.id
      · rw [if_pos hcond, if_pos (by simpa using hcond)]
        rfl
      · rw [if_neg hcond, if_neg (by simpa using hcond)]
    · rw [show (processMovie env actorId movie acc st).2 =
          addCastMembers actorId movie (movieYear movie) (credits.take 30) acc by
            simp [processMovie, hm]]
      rw [lookup?_addCastMembers_some actorId movie (movieYear movie) _ acc c v hl]

theorem lookup?_processMovies (env : Env) (actorId : Nat) (movies : List FilmEntry)
    (acc : List (Nat × CoStarInfo)) (st : SearchState) (c : Nat) :
    lookup? (processMovies env actorId movies acc st).2 c =
      (match lookup? acc c with
       | some v => some v
       | none => (movies.find? (fun m => eligibleB env actorId c m)).map infoOf) := by
  induction movies generalizing acc st with
  | nil =>
    rcases hl : lookup? acc c with _ | v <;> simp [processMovies, hl]
  | cons movie rest ih =>
    rcases hpm : processMovie env actorId movie acc st with ⟨st1, acc1⟩
    rw [show processMovies env actorId (movie :: rest) acc st =
        processMovies env actorId rest acc1 st1 by rw [processMovies, hpm]]
    rw [ih]
    have hl1 : lookup? acc1 c =
        (match lookup? acc c with
         | some v => some v
         | none => if eligibleB env actorId c movie then some (infoOf movie) else none) := by
      rw [← lookup?_processMovie env actorId movie acc st c, hpm]
    rcases hl : lookup? acc c with _ | v
    · rw [hl] at hl1
      simp only at hl1
      by_cases he : eligibleB env actorId c movie
      · rw [if_pos he] at hl1
        rw [hl1]
        rw [List.find?_cons_of_pos _ he]
        rfl
      · rw [if_neg he] at hl1
        rw [hl1]
        rw [List.find?_cons_of_neg _ (by simpa using he)]
    · rw [hl] at hl1
      simp only at hl1
      rw [hl1]

theorem processMovie_castFetches (env : Env) (actorId : Nat) (movie : FilmEntry)
    (acc : List (Nat × CoStarInfo)) (st : SearchState) :
    (processMovie env actorId movie acc st).1.castFetches =
      st.castFetches ++ [movie.id] := by
  rcases hm : env.getMovieCredits movie.id with e | credits <;>
    simp [processMovie, hm]

theorem processMovies_castFetches (env : Env) (actorId : Nat) (movies : List FilmEntry)
    (acc : List (Nat × CoStarInfo)) (st : SearchState) :
    (processMovies env actorId movies acc st).1.castFetches =
      st.castFetches ++ movies.map FilmEntry.id := by
  induction movies generalizing acc st with
  | nil => simp [processMovies]
  | cons movie rest ih =>
    rcases hpm : processMovie env actorId movie acc st with ⟨st1, acc1⟩
    rw [show processMovies env actorId (movie :: rest) acc st =
        processMovies env actorId rest acc1 st1 by rw [processMovies, hpm]]
    rw [ih, show st1.castFetches = st.castFetches ++ [movie.id] by
      rw [← processMovie_castFetches env actorId movie acc st, hpm]]
    simp

/-- A `find?` hit on a `Pairwise le` list is `le`-above every other hit. -/
theorem find?_min_of_pairwise {α : Type} (le : α → α → Bool) (p : α → Bool)
    (l : List α) (hp : l.Pairwise (fun a b => le a b = true)) (a : α)
    (hf : l.find? p = some a) :
    ∀ b ∈ l, p b = true → le a b = true ∨ b = a := by
  induction l with
  | nil => cases hf
  | cons x xs ih =>
    rcases List.pairwise_cons.mp hp with ⟨hx, hxs⟩
    by_cases hpx : p x = true
    · rw [List.find?_cons_of_pos _ hpx] at hf
      cases hf
      intro b hb hpb
      rcases List.mem_cons.mp hb with hb | hb
      · exact Or.inr hb
      · exact Or.inl (hx b hb)
    · rw [List.find?_cons_of_neg _ (by simpa using hpx)] at hf
      intro b hb hpb
      rcases List.mem_cons.mp hb with hb | hb
      · exact absurd (hb ▸ hpb) hpx
      · exact ih hxs hf b hb hpb

theorem popDesc_total : ∀ a b : FilmEntry, popDesc a b = true ∨ popDesc b a = true := by
  intro a b
  simp only [popDesc, decide_eq_true_eq]
  exact Int.le_total b.popularity a.popularity

theorem popDesc_trans : ∀ a b c : FilmEntry,
    popDesc a b = true → popDesc b c = true → popDesc a c = true := by
  intro a b c hab hbc
  simp only [popDesc, decide_eq_true_eq] at *
  exact le_trans hbc hab

theorem pairwise_topMovies (credits : List FilmEntry) :
    (topMovies credits).Pairwise (fun a b => popDesc a b = true) :=
  ((pairwise_sortLe popDesc popDesc_total popDesc_trans _).sublist
    (List.take_sublist _ _)).imp id

/-- C5: in one expansion step, a recorded co-star entry always comes from
the first eligible movie in the descending-popularity order `topMovies` —
the mapping records the movie of highest popularity among the qualifying
movies containing that co-star, and entries from later movies never
override it. -/
theorem getCoStars_first_movie_wins (env : Env) (actorId : Nat) (st st1 st2 : SearchState)
    (credits : List FilmEntry) (coStars : List (Nat × CoStarInfo))
    (hf : getFilmography env actorId st = (st1, .ok credits))
    (hc : getCoStars env actorId st = (st2, .ok coStars))
    (c : Nat) (info : CoStarInfo) (hl : lookup? coStars c = some info) :
    ∃ movie, (topMovies credits).find? (fun m => eligibleB env actorId c m) = some movie ∧
      info = infoOf movie ∧
      ∀ other ∈ topMovies credits, eligibleB env actorId c other = true →
        other.popularity ≤ movie.popularity := by
  rcases hp : processMovies env actorId (topMovies credits) [] st1 with ⟨st2x, m2⟩
  have hgc : getCoStars env actorId st = (st2x, .ok m2) := by simp [getCoStars, hf, hp]
  rw [hgc] at hc
  have hcs : m2 = coStars := by
    have := congrArg Prod.snd hc
    simpa using this
  subst hcs
  have hl2 : lookup? (processMovies env actorId (topMovies credits) [] st1).2 c = some info := by
    rw [hp]
    exact hl
  rw [lookup?_processMovies] at hl2
  simp only [lookup?] at hl2
  rcases hfind : (topMovies credits).find? (fun m => eligibleB env actorId c m) with _ | movie
  · rw [hfind] at hl2
    cases hl2
  · rw [hfind] at hl2
    refine ⟨movie, rfl, by cases hl2; rfl, ?_⟩
    intro other hother hel
    rcases find?_min_of_pairwise popDesc _ _ (pairwise_topMovies credits) movie hfind
        other hother hel with hle | heq
    · simpa [popDesc, decide_eq_true_eq] using hle
    · rw [heq]

/-- C6: one expansion step issues cast fetches exactly for the entries of
`topMovies` — the at most 20 highest-popularity dated filmography entries —
and every recorded co-star comes from the first 30 billed cast members of
one of those movies. -/
theorem getCoStars_fanout_caps (env : Env) (actorId : Nat) (st st1 : SearchState)
    (credits : List FilmEntry)
    (hf : getFilmography env actorId st = (st1, .ok credits)) :
    ∃ st2 coStars, getCoStars env actorId st = (st2, .ok coStars) ∧
      st2.castFetches = st1.castFetches ++ (topMovies credits).map FilmEntry.id ∧
      (topMovies credits).length ≤ 20 ∧
      (∀ movie ∈ topMovies credits, movie.release_date ≠ "") ∧
      (∀ c info, lookup? coStars c = some info →
        ∃ movie ∈ topMovies credits, ∃ cast,
          env.getMovieCredits movie.id = .ok cast ∧
          c ∈ (cast.take 30).map CastMember.id ∧ c ≠ actorId) := by
  rcases hp : processMovies env actorId (topMovies credits) [] st1 with ⟨st2, coStars⟩
  refine ⟨st2, coStars, by simp [getCoStars, hf, hp], ?_, ?_, ?_, ?_⟩
  · have hcf := processMovies_castFetches env actorId (topMovies credits) [] st1
    rw [hp] at hcf
    exact hcf
  · rw [topMovies]
    simp [List.length_take]
  · intro movie hm
    have hm2 : movie ∈ sortLe popDesc (credits.filter (fun m => m.release_date ≠ "")) :=
      List.mem_of_mem_take hm
    have hm3 := (mem_sortLe _ _ movie).mp hm2
    exact of_decide_eq_true (List.mem_filter.mp hm3).2
  · intro c info hl
    have : lookup? coStars c = (match lookup? ([] : List (Nat × CoStarInfo)) c with
        | some v => some v
        | none => ((topMovies credits).find? (fun m => eligibleB env actorId c m)).map infoOf) := by
      rw [← lookup?_processMovies env actorId (topMovies credits) [] st1 c, hp]
    rw [hl] at this
    simp only [lookup?] at this
    rcases hfind : (topMovies credits).find? (fun m => eligibleB env actorId c m)
        with _ | movie
    · rw [hfind] at this
      cases this
    · have hmem := List.mem_of_find?_eq_some hfind
      have hel := List.find?_some hfind
      simp only [eligibleB] at hel
      rcases hmc : env.getMovieCredits movie.id with e | cast
      · rw [hmc] at hel
        cases hel
      · rw [hmc] at hel
        have := of_decide_eq_true hel
        exact ⟨movie, hmem, cast, hmc, this.2, this.1⟩

/-- Environment in which co-star 7 appears in both qualifying movies of
actor 1; the filmography is delivered in ascending-popularity order to
exercise the sort. -/
def envShared : Env :=
  { getPersonCredits := fun actorId => if actorId = 1 then .ok [F20, F10] else .ok []
  , getMovieCredits := fun movieId =>
      if movieId = 10 then .ok [⟨1⟩, ⟨7⟩]
      else if movieId = 20 then .ok [⟨1⟩, ⟨7⟩]
      else .error ()
  , getPersonDetails := fun actorId => .ok ⟨actorId, "P" ++ toString actorId, none, none⟩
  , getDeceasedPersons := fun _ => .ok [] }

/-- Module state after fetching actor 1's filmography in `envShared`. -/
def sharedSt1 : SearchState := (getFilmography envShared 1 SearchState.empty).1

/-- Module state after expanding actor 1 in `envShared`. -/
def sharedSt2 : SearchState := (getCoStars envShared 1 SearchState.empty).1

/-- Co-star map of actor 1 in `envShared`. -/
def sharedMap : List (Nat × CoStarInfo) :=
  match (getCoStars envShared 1 SearchState.empty).2 with
  | .ok m => m
  | .error _ => []

/-- Witness for C5: co-star 7 appears in movie 10 (popularity 5) and movie
20 (popularity 4); the recorded connecting movie is movie 10. -/
theorem getCoStars_first_movie_wins_witness :
    getFilmography envShared 1 SearchState.empty = (sharedSt1, .ok [F20, F10]) ∧
    getCoStars envShared 1 SearchState.empty = (sharedSt2, .ok sharedMap) ∧
    lookup? sharedMap 7 = some ⟨10, "M10", some 2000⟩ ∧
    (∃ movie, (topMovies [F20, F10]).find? (fun m => eligibleB envShared 1 7 m) = some movie ∧
      (⟨10, "M10", some 2000⟩ : CoStarInfo) = infoOf movie ∧
      ∀ other ∈ topMovies [F20, F10], eligibleB envShared 1 7 other = true →
        other.popularity ≤ movie.popularity) :=
  ⟨rfl, rfl, rfl,
   getCoStars_first_movie_wins envShared 1 SearchState.empty sharedSt1 sharedSt2
     [F20, F10] sharedMap rfl rfl 7 ⟨10, "M10", some 2000⟩ rfl⟩

/-- Witness for C6 at the concrete `envShared`. -/
theorem getCoStars_fanout_caps_witness :
    getFilmography envShared 1 SearchState.empty = (sharedSt1, .ok [F20, F10]) ∧
    (∃ st2 coStars, getCoStars envShared 1 SearchState.empty = (st2, .ok coStars) ∧
      st2.castFetches = sharedSt1.castFetches ++ (topMovies [F20, F10]).map FilmEntry.id ∧
      (topMovies [F20, F10]).length ≤ 20 ∧
      (∀ movie ∈ topMovies [F20, F10], movie.release_date ≠ "") ∧
      (∀ c info, lookup? coStars c = some info →
        ∃ movie ∈ topMovies [F20, F10], ∃ cast,
          envShared.getMovieCredits movie.id = .ok cast ∧
          c ∈ (cast.take 30).map CastMember.id ∧ c ≠ 1)) :=
  ⟨rfl, getCoStars_fanout_caps envShared 1 SearchState.empty sharedSt1 [F20, F10] rfl⟩

/-! ### C8 — the filmography fetch log stays duplicate-free -/

/-- Invariant tying the fetch log to the cache: the log is duplicate-free
and everything logged is cached (so it will not be fetched again). -/
def CachedLog (st : SearchState) : Prop :=
  st.creditFetches.Nodup ∧ ∀ id ∈ st.creditFetches, hasK st.cache id = true

theorem getFilmography_log (env : Env) (actorId : Nat) (st st' : SearchState)
    (res : Except Unit (List FilmEntry))
    (h : getFilmography env actorId st = (st', res)) (hcl : CachedLog st) :
    st'.creditFetches.Nodup ∧ (∀ credits, res = .ok credits → CachedLog st') := by
  rcases hlk : lookup? st.cache actorId with _ | credits
  · have hnotin : actorId ∉ st.creditFetches := by
      intro hin
      have := hcl.2 actorId hin
      simp [hasK, hlk] at this
    have hnodup : (st.creditFetches ++ [actorId]).Nodup :=
      List.nodup_append.mpr ⟨hcl.1, List.nodup_singleton actorId,
        fun x hx => by simp; intro he; exact hnotin (he ▸ hx)⟩
    rcases hpc : env.getPersonCredits actorId with e | credits
    · rw [getFilmography, hlk] at h
      simp only [hpc] at h
      cases h
      exact ⟨hnodup, fun _ hcon => by cases hcon⟩
    · rw [getFilmography, hlk] at h
      simp only [hpc] at h
      cases h
      refine ⟨hnodup, fun c hc => ⟨hnodup, ?_⟩⟩
      intro id hid
      rw [hasK_setK]
      by_cases he : actorId = id
      · rw [if_pos he]
      · rw [if_neg he]
        rcases List.mem_append.mp hid with hid | hid
        · exact hcl.2 id hid
        · simp at hid
          exact absurd hid.symm he
  · rw [getFilmography, hlk] at h
    cases h
    exact ⟨hcl.1, fun _ _ => hcl⟩

theorem processMovie_cacheLog (env : Env) (actorId : Nat) (movie : FilmEntry)
    (acc : List (Nat × CoStarInfo)) (st : SearchState) :
    (processMovie env actorId movie acc st).1.cache = st.cache ∧
    (processMovie env actorId movie acc st).1.creditFetches = st.creditFetches := by
  rcases hm : env.getMovieCredits movie.id with e | credits <;> simp [processMovie, hm]

theorem processMovies_cacheLog (env : Env) (actorId : Nat) (movies : List FilmEntry)
    (acc : List (Nat × CoStarInfo)) (st : SearchState) :
    (processMovies env actorId movies acc st).1.cache = st.cache ∧
    (processMovies env actorId movies acc st).1.creditFetches = st.creditFetches := by
  induction movies generalizing acc st with
  | nil => simp [processMovies]
  | cons movie rest ih =>
    rcases hpm : processMovie env actorId movie acc st with ⟨st1, acc1⟩
    rw [show processMovies env actorId (movie :: rest) acc st =
        processMovies env actorId rest acc1 st1 by rw [processMovies, hpm]]
    have h1 := processMovie_cacheLog env actorId movie acc st
    rw [hpm] at h1
    rcases ih acc1 st1 with ⟨h2, h3⟩
    exact ⟨h2.trans h1.1, h3.trans h1.2⟩

theorem getCoStars_log (env : Env) (actorId : Nat) (st st' : SearchState)
    (res : Except Unit (List (Nat × CoStarInfo)))
    (h : getCoStars env actorId st = (st', res)) (hcl : CachedLog st) :
    st'.creditFetches.Nodup ∧ (∀ coStars, res = .ok coStars → CachedLog st') := by
  rcases hf : getFilmography env actorId st with ⟨st1, fres⟩
  have hgf := getFilmography_log env actorId st st1 fres hf hcl
  cases fres with
  | error e =>
    rw [getCoStars, hf] at h
    cases h
    exact ⟨hgf.1, fun _ hcon => by cases hcon⟩
  | ok credits =>
    have hcl1 : CachedLog st1 := hgf.2 credits rfl
    rcases hp : processMovies env actorId (topMovies credits) [] st1 with ⟨st2, coStars⟩
    have hpl := processMovies_cacheLog env actorId (topMovies credits) [] st1
    rw [hp] at hpl
    have hcl2 : CachedLog st2 := by
      rw [CachedLog, hpl.1, hpl.2]
      exact hcl1
    have hout : getCoStars env actorId st = (st2, .ok coStars) := by
      simp [getCoStars, hf, hp]
    rw [hout] at h
    have h1 : st2 = st' := congrArg Prod.fst h
    subst h1
    have h2 : res = .ok coStars := by
      have := congrArg Prod.snd h
      simpa using this.symm
    subst h2
    exact ⟨hcl2.1, fun _ _ => hcl2⟩

theorem expandLevel_log (env : Env) (n : Nat) (queueCur : List BFSNode)
    (visitedCur visitedOpp : List (Nat × BFSNode)) (st st' : SearchState)
    (res : Except Unit
      (List BFSNode × List (Nat × BFSNode) × Option (Nat × Option MovieRef × Option MovieRef)))
    (h : expandLevel env n queueCur visitedCur visitedOpp st = (st', res))
    (hcl : CachedLog st) :
    st'.creditFetches.Nodup ∧ (∀ x, res = .ok x → CachedLog st') := by
  induction n generalizing queueCur visitedCur st with
  | zero =>
    rw [expandLevel] at h
    cases h
    exact ⟨hcl.1, fun _ _ => hcl⟩
  | succ n ih =>
    match queueCur with
    | [] =>
      rw [expandLevel] at h
      cases h
      exact ⟨hcl.1, fun _ _ => hcl⟩
    | current :: queueRest =>
      rcases hgc : getCoStars env current.actorId st with ⟨st1, gres⟩
      have hlog := getCoStars_log env current.actorId st st1 gres hgc hcl
      cases gres with
      | error e =>
        rw [expandLevel, hgc] at h
        cases h
        exact ⟨hlog.1, fun _ hcon => by cases hcon⟩
      | ok coStars =>
        have hcl1 : CachedLog st1 := hlog.2 coStars rfl
        rcases hpc : processCoStars current coStars visitedCur visitedOpp queueRest
            with ⟨visitedCur1, queue1, meet?⟩
        cases meet? with
        | some meet =>
          rw [expandLevel, hgc] at h
          simp only [hpc] at h
          cases h
          exact ⟨hcl1.1, fun _ _ => hcl1⟩
        | none =>
          rw [expandLevel, hgc] at h
          simp only [hpc] at h
          exact ih queue1 visitedCur1 st1 h hcl1

/-- Invariant propagated through one loop iteration: states carried by
non-failing outcomes keep the full invariant, a propagated failure still
leaves a duplicate-free fetch log. -/
def stepLogOk : StepOut → Prop
  | .next s => CachedLog s.st
  | .noMeet s => CachedLog s.st
  | .meet _ s => CachedLog s.st
  | .fail st => st.creditFetches.Nodup

theorem stepB_log (env : Env) (s : LoopState) (hcl : CachedLog s.st) :
    stepLogOk (stepB env s) := by
  rw [stepB]
  by_cases hq : s.queueB.isEmpty
  · rw [if_pos hq]
    exact hcl
  · rw [if_neg hq]
    rcases hexp : expandLevel env s.queueB.length s.queueB s.visitedB s.visitedA s.st
        with ⟨st1, res⟩
    have hlog := expandLevel_log env _ _ _ _ _ st1 res hexp hcl
    cases res with
    | error e => exact hlog.1
    | ok triple =>
      obtain ⟨qB1, vB1, meet?⟩ := triple
      cases meet? with
      | some m =>
        obtain ⟨cid, mc, mo⟩ := m
        exact hlog.2 _ rfl
      | none => exact hlog.2 _ rfl

theorem searchStep_log (env : Env) (maxD : Nat) (s : LoopState) (hcl : CachedLog s.st) :
    stepLogOk (searchStep env maxD s) := by
  rw [searchStep]
  by_cases h1 : s.queueA.isEmpty ∧ s.queueB.isEmpty
  · rw [if_pos h1]
    exact hcl
  · rw [if_neg h1]
    by_cases h2 : maxD ≤ s.degA + s.degB
    · rw [if_pos h2]
      exact hcl
    · rw [if_neg h2]
      by_cases h3 : s.queueA.isEmpty = false ∧ s.degA ≤ s.degB
      · rw [if_pos h3]
        rcases hexp : expandLevel env s.queueA.length s.queueA s.visitedA s.visitedB s.st
            with ⟨st1, res⟩
        have hlog := expandLevel_log env _ _ _ _ _ st1 res hexp hcl
        cases res with
        | error e => exact hlog.1
        | ok triple =>
          obtain ⟨qA1, vA1, meet?⟩ := triple
          cases meet? with
          | some m =>
            obtain ⟨cid, mc, mo⟩ := m
            exact hlog.2 _ rfl
          | none => exact stepB_log env _ (hlog.2 _ rfl)
      · rw [if_neg h3]
        exact stepB_log env s hcl

/-- Loop-level version of `stepLogOk`. -/
def searchLogOk : SearchOut → Prop
  | .diverged s => CachedLog s.st
  | .noMeet s => CachedLog s.st
  | .meet _ s => CachedLog s.st
  | .fail st => st.creditFetches.Nodup

theorem searchLoop_log (env : Env) (maxD : Nat) (fuel : Nat) (s : LoopState)
    (hcl : CachedLog s.st) : searchLogOk (searchLoop env maxD fuel s) := by
  induction fuel generalizing s with
  | zero => exact hcl
  | succ fuel ih =>
    rw [searchLoop_succ]
    have hstep := searchStep_log env maxD s hcl
    rcases hout : searchStep env maxD s with s1 | s1 | ⟨mp, s1⟩ | st1 <;> rw [hout] at hstep
    · exact ih s1 hstep
    · exact hstep
    · exact hstep
    · exact hstep

/-- C8: within one `findConnection` invocation started with an empty fetch
log, the filmography fetch for any single actor id is issued at most once
(the final log is duplicate-free), and a cached actor id is answered from
the memoized value without a new fetch. -/
theorem findConnection_fetch_once (env : Env) (a b : Nat) (opts : Option Nat)
    (fuel : Nat) (st : SearchState) (h : st.creditFetches = []) :
    (findConnection env a b opts fuel st).1.creditFetches.Nodup ∧
    (∀ id credits st0, lookup? st0.cache id = some credits →
      getFilmography env id st0 = (st0, .ok credits)) := by
  constructor
  · by_cases hab : a = b
    · subst hab
      rcases hd : env.getPersonDetails a with e | p <;> simp [findConnection, hd, h]
    · have hinit : CachedLog (initLoopState a b st).st := by
        refine ⟨by simp [initLoopState, clearFilmographyCache, h], ?_⟩
        intro id hid
        rw [show (initLoopState a b st).st.creditFetches = st.creditFetches from rfl, h] at hid
        cases hid
      have hloop := searchLoop_log env (opts.getD 6) fuel (initLoopState a b st) hinit
      rcases hout : searchLoop env (opts.getD 6) fuel (initLoopState a b st)
          with s | s | ⟨mp, s⟩ | st1 <;> rw [hout] at hloop
      · simp [findConnection, hab, hout]
        exact hloop.1
      · simp [findConnection, hab, hout, clearFilmographyCache]
        exact hloop.1
      · have hcf := meetResult_creditFetches env mp s
        simp only [findConnection, if_neg hab, hout]
        rw [hcf]
        exact hloop.1
      · simp [findConnection, hab, hout]
        exact hloop
  · intro id credits st0 hlk
    rw [getFilmography, hlk]

/-- Witness for C8 at the concrete two-hop environment. -/
theorem findConnection_fetch_once_witness :
    SearchState.empty.creditFetches = [] ∧
    ((findConnection envTwoHop 1 2 (some 6) 9 SearchState.empty).1.creditFetches.Nodup ∧
     (∀ id credits st0, lookup? st0.cache id = some credits →
       getFilmography envTwoHop id st0 = (st0, .ok credits))) :=
  ⟨rfl, findConnection_fetch_once envTwoHop 1 2 (some 6) 9 SearchState.empty rfl⟩

/-! ### C10 — the deceased-records store is queried only on the
non-identity success path -/

theorem getFilmography_dq (env : Env) (actorId : Nat) (st : SearchState) :
    (getFilmography env actorId st).1.deceasedQueries = st.deceasedQueries := by
  rcases hlk : lookup? st.cache actorId with _ | credits
  · rcases hpc : env.getPersonCredits actorId with e | credits <;>
      simp [getFilmography, hlk, hpc]
  · simp [getFilmography, hlk]

theorem processMovie_dq (env : Env) (actorId : Nat) (movie : FilmEntry)
    (acc : List (Nat × CoStarInfo)) (st : SearchState) :
    (processMovie env actorId movie acc st).1.deceasedQueries = st.deceasedQueries := by
  rcases hm : env.getMovieCredits movie.id with e | credits <;> simp [processMovie, hm]

theorem processMovies_dq (env : Env) (actorId : Nat) (movies : List FilmEntry)
    (acc : List (Nat × CoStarInfo)) (st : SearchState) :
    (processMovies env actorId movies acc st).1.deceasedQueries = st.deceasedQueries := by
  induction movies generalizing acc st with
  | nil => simp [processMovies]
  | cons movie rest ih =>
    rcases hpm : processMovie env actorId movie acc st with ⟨st1, acc1⟩
    rw [show processMovies env actorId (movie :: rest) acc st =
        processMovies env actorId rest acc1 st1 by rw [processMovies, hpm]]
    have h1 := processMovie_dq env actorId movie acc st
    rw [hpm] at h1
    exact (ih acc1 st1).trans h1

theorem getCoStars_dq (env : Env) (actorId : Nat) (st : SearchState) :
    (getCoStars env actorId st).1.deceasedQueries = st.deceasedQueries := by
  rcases hf : getFilmography env actorId st with ⟨st1, fres⟩
  have h1 := getFilmography_dq env actorId st
  rw [hf] at h1
  cases fres with
  | error e => simpa [getCoStars, hf] using h1
  | ok credits =>
    rcases hp : processMovies env actorId (topMovies credits) [] st1 with ⟨st2, coStars⟩
    have h2 := processMovies_dq env actorId (topMovies credits) [] st1
    rw [hp] at h2
    have hout : getCoStars env actorId st = (st2, .ok coStars) := by
      simp [getCoStars, hf, hp]
    rw [hout]
    exact h2.trans h1

theorem expandLevel_dq (env : Env) (n : Nat) (queueCur : List BFSNode)
    (visitedCur visitedOpp : List (Nat × BFSNode)) (st : SearchState) :
    (expandLevel env n queueCur visitedCur visitedOpp st).1.deceasedQueries =
      st.deceasedQueries := by
  induction n generalizing queueCur visitedCur st with
  | zero => simp [expandLevel]
  | succ n ih =>
    match queueCur with
    | [] => simp [expandLevel]
    | current :: queueRest =>
      rcases hgc : getCoStars env current.actorId st with ⟨st1, gres⟩
      have h1 := getCoStars_dq env current.actorId st
      rw [hgc] at h1
      cases gres with
      | error e => simpa [expandLevel, hgc] using h1
      | ok coStars =>
        rcases hpc : processCoStars current coStars visitedCur visitedOpp queueRest
            with ⟨visitedCur1, queue1, meet?⟩
        cases meet? with
        | some meet =>
          rw [expandLevel, hgc]
          simp only [hpc]
          exact h1
        | none =>
          rw [expandLevel, hgc]
          simp only [hpc]
          exact (ih queue1 visitedCur1 st1).trans h1

/-- Module state carried by a loop-iteration outcome. -/
def StepOut.state : StepOut → SearchState
  | .next s => s.st
  | .noMeet s => s.st
  | .meet _ s => s.st
  | .fail st => st

/-- Module state carried by a loop outcome. -/
def SearchOut.state : SearchOut → SearchState
  | .diverged s => s.st
  | .noMeet s => s.st
  | .meet _ s => s.st
  | .fail st => st

theorem stepB_dq (env : Env) (s : LoopState) :
    (stepB env s).state.deceasedQueries = s.st.deceasedQueries := by
  rw [stepB]
  by_cases hq : s.queueB.isEmpty
  · rw [if_pos hq]
    rfl
  · rw [if_neg hq]
    rcases hexp : expandLevel env s.queueB.length s.queueB s.visitedB s.visitedA s.st
        with ⟨st1, res⟩
    have h1 := expandLevel_dq env s.queueB.length s.queueB s.visitedB s.visitedA s.st
    rw [hexp] at h1
    cases res with
    | error e => exact h1
    | ok triple =>
      obtain ⟨qB1, vB1, meet?⟩ := triple
      cases meet? with
      | some m =>
        obtain ⟨cid, mc, mo⟩ := m
        exact h1
      | none => exact h1

theorem searchStep_dq (env : Env) (maxD : Nat) (s : LoopState) :
    (searchStep env maxD s).state.deceasedQueries = s.st.deceasedQueries := by
  rw [searchStep]
  by_cases h1 : s.queueA.isEmpty ∧ s.queueB.isEmpty
  · rw [if_pos h1]
    rfl
  · rw [if_neg h1]
    by_cases h2 : maxD ≤ s.degA + s.degB
    · rw [if_pos h2]
      rfl
    · rw [if_neg h2]
      by_cases h3 : s.queueA.isEmpty = false ∧ s.degA ≤ s.degB
      · rw [if_pos h3]
        rcases hexp : expandLevel env s.queueA.length s.queueA s.visitedA s.visitedB s.st
            with ⟨st1, res⟩
        have hd := expandLevel_dq env s.queueA.length s.queueA s.visitedA s.visitedB s.st
        rw [hexp] at hd
        cases res with
        | error e => exact hd
        | ok triple =>
          obtain ⟨qA1, vA1, meet?⟩ := triple
          cases meet? with
          | some m =>
            obtain ⟨cid, mc, mo⟩ := m
            exact hd
          | none =>
            exact (stepB_dq env _).trans hd
      · rw [if_neg h3]
        exact stepB_dq env s

theorem searchLoop_dq (env : Env) (maxD fuel : Nat) (s : LoopState) :
    (searchLoop env maxD fuel s).state.deceasedQueries = s.st.deceasedQueries := by
  induction fuel generalizing s with
  | zero => rfl
  | succ fuel ih =>
    rw [searchLoop_succ]
    have hstep := searchStep_dq env maxD s
    rcases hout : searchStep env maxD s with s1 | s1 | ⟨mp, s1⟩ | st1 <;>
      rw [hout] at hstep
    · exact (ih s1).trans hstep
    · exact hstep
    · exact hstep
    · exact hstep

/-- C10: the identity call returns `deceasedOnPath = []` with
`totalDeceased = 1` for a deceased actor and leaves the module state — in
particular the log of deceased-record queries — untouched; and whenever a
non-identity search ends in the no-connection outcome, no deceased-record
query was issued either: the bulk lookup happens only on the success path. -/
theorem findConnection_deceased_only_on_success :
    (∀ env : Env, ∀ x : Nat, ∀ opts : Option Nat, ∀ fuel : Nat, ∀ st : SearchState,
      ∀ p : PersonDetails, ∀ d : String,
      env.getPersonDetails x = .ok p → p.deathday = some d →
      findConnection env x x opts fuel st =
        (st, .result ⟨0, [⟨⟨p.id, p.name, p.profile_path, true⟩, none⟩], 1, []⟩)) ∧
    (∀ env : Env, ∀ a b : Nat, ∀ opts : Option Nat, ∀ fuel : Nat, ∀ st : SearchState,
      (findConnection env a b opts fuel st).2 = Outcome.noConnection →
      (findConnection env a b opts fuel st).1.deceasedQueries = st.deceasedQueries) := by
  constructor
  · intro env x opts fuel st p d hp hd
    simp [findConnection, hp, hd]
  · intro env a b opts fuel st hout
    by_cases hab : a = b
    · subst hab
      rcases hd : env.getPersonDetails a with e | p <;>
        simp [findConnection, hd] at hout
    · have hdq := searchLoop_dq env (opts.getD 6) fuel (initLoopState a b st)
      have hinit : (initLoopState a b st).st.deceasedQueries = st.deceasedQueries := rfl
      rcases hl : searchLoop env (opts.getD 6) fuel (initLoopState a b st)
          with s | s | ⟨mp, s⟩ | st1 <;> rw [hl] at hdq
      · simp [findConnection, hab, hl] at hout
      · simp [findConnection, hab, hl, clearFilmographyCache]
        exact hdq.trans hinit
      · exfalso
        simp only [findConnection, if_neg hab, hl] at hout
        exact meetResult_ne_noConnection env mp s hout
      · simp [findConnection, hab, hl] at hout

/-- Environment whose single actor 1 is deceased. -/
def envIdDeceased : Env :=
  { getPersonCredits := fun _ => .ok []
  , getMovieCredits := fun _ => .error ()
  , getPersonDetails := fun actorId =>
      .ok ⟨actorId, "P" ++ toString actorId, none, some "2020-01-01"⟩
  , getDeceasedPersons := fun _ => .ok [] }

/-- Environment where actors 1 and 2 both have empty filmographies, so a
search between them exhausts both frontiers and ends with no connection. -/
def envNoConn : Env :=
  { getPersonCredits := fun _ => .ok []
  , getMovieCredits := fun _ => .error ()
  , getPersonDetails := fun actorId => .ok ⟨actorId, "P" ++ toString actorId, none, none⟩
  , getDeceasedPersons := fun _ => .ok [] }

/-- Witness for C10: the identity call on a deceased actor (empty options,
so `maxDegrees` defaults) and a concrete no-connection run, both leaving
the deceased-query log untouched. -/
theorem findConnection_deceased_only_on_success_witness :
    (envIdDeceased.getPersonDetails 1 = .ok ⟨1, "P1", none, some "2020-01-01"⟩ ∧
     findConnection envIdDeceased 1 1 none 3 SearchState.empty =
       (SearchState.empty, .result ⟨0, [⟨⟨1, "P1", none, true⟩, none⟩], 1, []⟩)) ∧
    ((findConnection envNoConn 1 2 (some 6) 5 SearchState.empty).2 = Outcome.noConnection ∧
     (findConnection envNoConn 1 2 (some 6) 5 SearchState.empty).1.deceasedQueries =
       SearchState.empty.deceasedQueries) :=
  ⟨⟨rfl,
    findConnection_deceased_only_on_success.1 envIdDeceased 1 none 3 SearchState.empty
      ⟨1, "P1", none, some "2020-01-01"⟩ "2020-01-01" rfl rfl⟩,
   ⟨rfl,
    findConnection_deceased_only_on_success.2 envNoConn 1 2 (some 6) 5 SearchState.empty rfl⟩⟩

/-! ### C9 — visited-map disjointness and duplicate-free paths -/

/-- Ids along the parent chain starting one step above this node. -/
def BFSNode.parentChainIds : BFSNode → List Nat
  | .mk _ none _ => []
  | .mk _ (some p) _ => p.chainIds

theorem chainIds_parent (n : BFSNode) :
    n.chainIds = n.actorId :: n.parentChainIds := by
  rcases n with ⟨a, p, m⟩
  cases p <;> rfl

theorem chainIds_mk_some (a : Nat) (p : BFSNode) (m : Option MovieRef) :
    (BFSNode.mk a (some p) m).chainIds = a :: p.chainIds := rfl

theorem chainPairs_fst : ∀ n : BFSNode, n.chainPairs.map Prod.fst = n.chainIds
  | .mk a none m => rfl
  | .mk a (some p) m => by
    rw [show (BFSNode.mk a (some p) m).chainPairs = (a, m) :: p.chainPairs from rfl,
      chainIds_mk_some, List.map_cons, chainPairs_fst p]

/-- A node is well-formed relative to a visited map when its parent chain
has no repeated actor ids and every id on it is a key of the map. -/
def good (v : List (Nat × BFSNode)) (n : BFSNode) : Prop :=
  n.chainIds.Nodup ∧ ∀ k ∈ n.chainIds, hasK v k = true

/-- Every binding of a visited map is keyed by its node's actor id and is
well-formed. -/
def MapBound (v : List (Nat × BFSNode)) : Prop :=
  ∀ k n, lookup? v k = some n → n.actorId = k ∧ good v n

/-- Every queued node is well-formed relative to its side's visited map. -/
def QueueOk (v : List (Nat × BFSNode)) (q : List BFSNode) : Prop :=
  ∀ n ∈ q, good v n

/-- The two visited maps share no key. -/
def Disj (va vb : List (Nat × BFSNode)) : Prop :=
  ∀ k, hasK va k = true → hasK vb k = true → False

theorem Disj.symm2 {va vb : List (Nat × BFSNode)} (h : Disj va vb) : Disj vb va :=
  fun k h1 h2 => h k h2 h1

theorem good_mono {v v' : List (Nat × BFSNode)}
    (hsub : ∀ k, hasK v k = true → hasK v' k = true) {n : BFSNode} (h : good v n) :
    good v' n :=
  ⟨h.1, fun k hk => hsub k (h.2 k hk)⟩

theorem hasK_setK_mono {v : List (Nat × BFSNode)} (k0 : Nat) (n0 : BFSNode) :
    ∀ k, hasK v k = true → hasK (setK v k0 n0) k = true := by
  intro k hk
  rw [hasK_setK]
  by_cases he : k0 = k
  · rw [if_pos he]
  · rw [if_neg he]
    exact hk

/-- Invariant facts available when an expansion returns a meeting triple
for co-star `cid`: the current side's map is its pre-insert version plus
the meeting node, the pre-insert version is key-disjoint from the opposite
map, the parent node is well-formed in it, and `cid` is a key of the
opposite map. -/
def MeetCore (vOpp vC1 : List (Nat × BFSNode)) (cid : Nat) (mc : Option MovieRef) : Prop :=
  ∃ vMid current, good vMid current ∧ Disj vMid vOpp ∧ hasK vOpp cid = true ∧
    vC1 = setK vMid cid (BFSNode.mk cid (some current) mc)

theorem processCoStars_inv (current : BFSNode) :
    ∀ (pairs : List (Nat × CoStarInfo)) (vC vO : List (Nat × BFSNode)) (qC : List BFSNode),
    MapBound vC → QueueOk vC qC → good vC current → Disj vC vO →
    (match processCoStars current pairs vC vO qC with
     | (vC1, qC1, none) =>
         MapBound vC1 ∧ QueueOk vC1 qC1 ∧ Disj vC1 vO ∧
         (∀ k, hasK vC k = true → hasK vC1 k = true)
     | (vC1, _, some (cid, mc, _)) => MeetCore vO vC1 cid mc)
  | [], vC, vO, qC, hb, hq, _, hd => ⟨hb, hq, hd, fun _ h => h⟩
  | (cid, info) :: rest, vC, vO, qC, hb, hq, hcur, hd => by
    rw [processCoStars]
    by_cases h1 : hasK vO cid = true
    · rw [if_pos h1]
      exact ⟨vC, current, hcur, hd, h1, rfl⟩
    · rw [if_neg h1]
      by_cases h2 : hasK vC cid = false
      · rw [if_pos h2]
        have h1f : hasK vO cid = false := by
          cases hvo : hasK vO cid with
          | true => exact absurd hvo h1
          | false => rfl
        set node : BFSNode :=
          BFSNode.mk cid (some current) (some ⟨info.movieId, info.movieTitle, info.movieYear⟩)
          with hnode
        have hsub : ∀ k, hasK vC k = true → hasK (setK vC cid node) k = true :=
          hasK_setK_mono cid node
        have hnodegood : good (setK vC cid node) node := by
          constructor
          · rw [hnode, chainIds_mk_some]
            refine List.nodup_cons.mpr ⟨?_, hcur.1⟩
            intro hin
            have := hcur.2 cid hin
            rw [h2] at this
            cases this
          · rw [hnode, chainIds_mk_some]
            intro k hk
            rcases List.mem_cons.mp hk with hk | hk
            · rw [hk, hasK_setK, if_pos rfl]
            · exact hsub k (hcur.2 k hk)
        have hb2 : MapBound (setK vC cid node) := by
          intro k n hlk
          rw [lookup?_setK] at hlk
          by_cases he : cid = k
          · rw [if_pos he] at hlk
            cases hlk
            exact ⟨he, hnodegood⟩
          · rw [if_neg he] at hlk
            rcases hb k n hlk with ⟨ha, hg⟩
            exact ⟨ha, good_mono hsub hg⟩
        have hq2 : QueueOk (setK vC cid node) (qC ++ [node]) := by
          intro n hn
          rcases List.mem_append.mp hn with hn | hn
          · exact good_mono hsub (hq n hn)
          · simp at hn
            rw [hn]
            exact hnodegood
        have hcur2 : good (setK vC cid node) current := good_mono hsub hcur
        have hd2 : Disj (setK vC cid node) vO := by
          intro k hk hvo
          rw [hasK_setK] at hk
          by_cases he : cid = k
          · rw [← he] at hvo
            rw [hvo] at h1f
            cases h1f
          · rw [if_neg he] at hk
            exact hd k hk hvo
        have hih := processCoStars_inv current rest (setK vC cid node) vO (qC ++ [node])
          hb2 hq2 hcur2 hd2
        rcases hres : processCoStars current rest (setK vC cid node) vO (qC ++ [node])
            with ⟨vC1, qC1, meet?⟩
        rw [hres] at hih
        cases meet? with
        | none => exact ⟨hih.1, hih.2.1, hih.2.2.1, fun k hk => hih.2.2.2 k (hsub k hk)⟩
        | some m => exact hih
      · rw [if_neg h2]
        exact processCoStars_inv current rest vC vO qC hb hq hcur hd

theorem expandLevel_inv (env : Env) :
    ∀ (n : Nat) (qC : List BFSNode) (vC vO : List (Nat × BFSNode)) (st : SearchState),
    MapBound vC → QueueOk vC qC → Disj vC vO →
    (match (expandLevel env n qC vC vO st).2 with
     | .error _ => True
     | .ok (qC1, vC1, none) =>
         MapBound vC1 ∧ QueueOk vC1 qC1 ∧ Disj vC1 vO ∧
         (∀ k, hasK vC k = true → hasK vC1 k = true)
     | .ok (_, vC1, some (cid, mc, _)) => MeetCore vO vC1 cid mc)
  | 0, qC, vC, vO, st, hb, hq, hd => ⟨hb, hq, hd, fun _ h => h⟩
  | n + 1, [], vC, vO, st, hb, hq, hd => ⟨hb, fun _ h => absurd h (List.not_mem_nil _), hd, fun _ h => h⟩
  | n + 1, current :: qRest, vC, vO, st, hb, hq, hd => by
    rcases hgc : getCoStars env current.actorId st with ⟨st1, gres⟩
    cases gres with
    | error e =>
      rw [expandLevel, hgc]
      simp
    | ok coStars =>
      have hcur : good vC current := hq current (List.mem_cons_self _ _)
      have hqrest : QueueOk vC qRest := fun m hm => hq m (List.mem_cons_of_mem _ hm)
      have hpc := processCoStars_inv current coStars vC vO qRest hb hqrest hcur hd
      rcases hres : processCoStars current coStars vC vO qRest with ⟨vC1, q1, meet?⟩
      rw [hres] at hpc
      cases meet? with
      | some m =>
        obtain ⟨cid, mc, mo⟩ := m
        rw [expandLevel, hgc]
        simp only [hres]
        exact hpc
      | none =>
        rw [expandLevel, hgc]
        simp only [hres]
        have hih := expandLevel_inv env n q1 vC1 vO st1 hpc.1 hpc.2.1 hpc.2.2.1
        rcases hexp : (expandLevel env n q1 vC1 vO st1).2 with e | triple
        · trivial
        · obtain ⟨q2, vC2, meet2?⟩ := triple
          rw [hexp] at hih
          cases meet2? with
          | some m2 =>
            obtain ⟨cid2, mc2, mo2⟩ := m2
            exact hih
          | none => exact ⟨hih.1, hih.2.1, hih.2.2.1,
              fun k hk => hih.2.2.2 k (hpc.2.2.2 k hk)⟩

/-- Combined invariant of the loop state. -/
def StateInv (s : LoopState) : Prop :=
  MapBound s.visitedA ∧ QueueOk s.visitedA s.queueA ∧
  MapBound s.visitedB ∧ QueueOk s.visitedB s.queueB ∧
  Disj s.visitedA s.visitedB

/-- Facts holding when the loop stops with meeting actor `cid`: both maps
contain a well-formed node for `cid`, the two parent chains meet only at
`cid`, and the two maps share no key other than `cid`. -/
def MeetFinal (cid : Nat) (vA vB : List (Nat × BFSNode)) : Prop :=
  ∃ nA nB, lookup? vA cid = some nA ∧ lookup? vB cid = some nB ∧
    nA.actorId = cid ∧ nB.actorId = cid ∧
    nA.chainIds.Nodup ∧ nB.chainIds.Nodup ∧
    (∀ k, k ∈ nA.chainIds → k ∈ nB.chainIds → k = cid) ∧
    (∀ k, hasK vA k = true → hasK vB k = true → k = cid)

theorem meetFinal_swap {cid : Nat} {vA vB : List (Nat × BFSNode)}
    (h : MeetFinal cid vA vB) : MeetFinal cid vB vA := by
  obtain ⟨nA, nB, hA, hB, haA, haB, hnA, hnB, hcross, hinter⟩ := h
  exact ⟨nB, nA, hB, hA, haB, haA, hnB, hnA,
    fun k h1 h2 => hcross k h2 h1, fun k h1 h2 => hinter k h2 h1⟩

theorem meetFinal_of_core {vOpp vC1 : List (Nat × BFSNode)} {cid : Nat} {mc : Option MovieRef}
    (hbO : MapBound vOpp) (hcore : MeetCore vOpp vC1 cid mc) :
    MeetFinal cid vC1 vOpp := by
  obtain ⟨vMid, cur, hg, hdj, hOppCid, hEq⟩ := hcore
  have hMidCid : hasK vMid cid = false := by
    cases h : hasK vMid cid with
    | true => exact absurd hOppCid (fun hx => hdj cid h hx)
    | false => rfl
  have hlA : lookup? vC1 cid = some (BFSNode.mk cid (some cur) mc) := by
    rw [hEq, lookup?_setK, if_pos rfl]
  obtain ⟨nB, hlB⟩ : ∃ nB, lookup? vOpp cid = some nB := by
    rcases hx : lookup? vOpp cid with _ | nB
    · rw [hasK, hx] at hOppCid
      cases hOppCid
    · exact ⟨nB, rfl⟩
  rcases hbO cid nB hlB with ⟨haB, hgB⟩
  have hchainA : (BFSNode.mk cid (some cur) mc).chainIds = cid :: cur.chainIds :=
    chainIds_mk_some cid cur mc
  have hnodupA : (BFSNode.mk cid (some cur) mc).chainIds.Nodup := by
    rw [hchainA]
    refine List.nodup_cons.mpr ⟨?_, hg.1⟩
    intro hin
    have := hg.2 cid hin
    rw [hMidCid] at this
    cases this
  refine ⟨BFSNode.mk cid (some cur) mc, nB, hlA, hlB, rfl, haB, hnodupA, hgB.1, ?_, ?_⟩
  · intro k hkA hkB
    rw [hchainA] at hkA
    rcases List.mem_cons.mp hkA with hkA | hkA
    · exact hkA
    · exact absurd (hgB.2 k hkB) (fun hvb => hdj k (hg.2 k hkA) hvb)
  · intro k hk1 hk2
    rw [hEq, hasK_setK] at hk1
    by_cases he : cid = k
    · exact he.symm
    · rw [if_neg he] at hk1
      exact absurd hk2 (fun hvb => hdj k hk1 hvb)

theorem stepB_inv (env : Env) (s : LoopState) (hinv : StateInv s) :
    (match stepB env s with
     | .next s1 => StateInv s1
     | .meet mp s1 => MeetFinal mp.actorId s1.visitedA s1.visitedB
     | _ => True) := by
  obtain ⟨hbA, hqA, hbB, hqB, hd⟩ := hinv
  rw [stepB]
  by_cases hq : s.queueB.isEmpty
  · rw [if_pos hq]
    exact ⟨hbA, hqA, hbB, hqB, hd⟩
  · rw [if_neg hq]
    have hexp := expandLevel_inv env s.queueB.length s.queueB s.visitedB s.visitedA s.st
      hbB hqB hd.symm2
    rcases hres : expandLevel env s.queueB.length s.queueB s.visitedB s.visitedA s.st
        with ⟨st1, res⟩
    rw [hres] at hexp
    cases res with
    | error e => trivial
    | ok triple =>
      obtain ⟨qB1, vB1, meet?⟩ := triple
      cases meet? with
      | some m =>
        obtain ⟨cid, mc, mo⟩ := m
        exact meetFinal_swap (meetFinal_of_core hbA hexp)
      | none => exact ⟨hbA, hqA, hexp.1, hexp.2.1, (hexp.2.2.1).symm2⟩

theorem searchStep_inv (env : Env) (maxD : Nat) (s : LoopState) (hinv : StateInv s) :
    (match searchStep env maxD s with
     | .next s1 => StateInv s1
     | .meet mp s1 => MeetFinal mp.actorId s1.visitedA s1.visitedB
     | _ => True) := by
  obtain ⟨hbA, hqA, hbB, hqB, hd⟩ := hinv
  rw [searchStep]
  by_cases h1 : s.queueA.isEmpty ∧ s.queueB.isEmpty
  · rw [if_pos h1]
    trivial
  · rw [if_neg h1]
    by_cases h2 : maxD ≤ s.degA + s.degB
    · rw [if_pos h2]
      trivial
    · rw [if_neg h2]
      by_cases h3 : s.queueA.isEmpty = false ∧ s.degA ≤ s.degB
      · rw [if_pos h3]
        have hexp := expandLevel_inv env s.queueA.length s.queueA s.visitedA s.visitedB s.st
          hbA hqA hd
        rcases hres : expandLevel env s.queueA.length s.queueA s.visitedA s.visitedB s.st
            with ⟨st1, res⟩
        rw [hres] at hexp
        cases res with
        | error e => trivial
        | ok triple =>
          obtain ⟨qA1, vA1, meet?⟩ := triple
          cases meet? with
          | some m =>
            obtain ⟨cid, mc, mo⟩ := m
            exact meetFinal_of_core hbB hexp
          | none =>
            exact stepB_inv env
              { s with queueA := qA1, visitedA := vA1, degA := s.degA + 1, st := st1 }
              ⟨hexp.1, hexp.2.1, hbB, hqB, hexp.2.2.1⟩
      · rw [if_neg h3]
        exact stepB_inv env s ⟨hbA, hqA, hbB, hqB, hd⟩

theorem searchLoop_inv (env : Env) (maxD : Nat) (fuel : Nat) (s : LoopState)
    (hinv : StateInv s) :
    (match searchLoop env maxD fuel s with
     | .meet mp s1 => MeetFinal mp.actorId s1.visitedA s1.visitedB
     | _ => True) := by
  induction fuel generalizing s with
  | zero => trivial
  | succ fuel ih =>
    rw [searchLoop_succ]
    have hstep := searchStep_inv env maxD s hinv
    rcases hout : searchStep env maxD s with s1 | s1 | ⟨mp, s1⟩ | st1 <;>
      rw [hout] at hstep
    · exact ih s1 hstep
    · trivial
    · exact hstep
    · trivial

theorem lookup?_singleton {α : Type} (x : Nat) (v : α) (k : Nat) :
    lookup? [(x, v)] k = if x = k then some v else none := rfl

theorem initLoopState_inv (a b : Nat) (st : SearchState) (hab : a ≠ b) :
    StateInv (initLoopState a b st) := by
  have hbound : ∀ x : Nat, MapBound [(x, BFSNode.mk x none none)] := by
    intro x k n hlk
    rw [lookup?_singleton] at hlk
    by_cases he : x = k
    · rw [if_pos he] at hlk
      cases hlk
      refine ⟨he, List.nodup_singleton x, ?_⟩
      intro k2 hk2
      have hk2x : k2 = x := by simpa [BFSNode.chainIds] using hk2
      rw [hk2x, hasK, lookup?_singleton, if_pos rfl]
      rfl
    · rw [if_neg he] at hlk
      cases hlk
  have hqueue : ∀ x : Nat, QueueOk [(x, BFSNode.mk x none none)] [BFSNode.mk x none none] := by
    intro x n hn
    have hnx : n = BFSNode.mk x none none := by simpa using hn
    rw [hnx]
    refine ⟨List.nodup_singleton x, ?_⟩
    intro k hk
    have hkx : k = x := by simpa [BFSNode.chainIds] using hk
    rw [hkx, hasK, lookup?_singleton, if_pos rfl]
    rfl
  refine ⟨hbound a, hqueue a, hbound b, hqueue b, ?_⟩
  intro k h1 h2
  have h1x : (lookup? [(a, BFSNode.mk a none none)] k).isSome = true := h1
  have h2x : (lookup? [(b, BFSNode.mk b none none)] k).isSome = true := h2
  rw [lookup?_singleton] at h1x h2x
  by_cases hea : a = k
  · rw [← hea, if_neg (fun hba => hab hba.symm)] at h2x
    simp at h2x
  · rw [if_neg hea] at h1x
    simp at h1x

theorem buildFinalPath_ids (details : List (Nat × ActorInfo)) :
    ∀ l : List (Nat × Option MovieRef),
    (buildFinalPath details l).map (fun seg => seg.actor.id) = l.map Prod.fst
  | [] => rfl
  | (actorId, mv) :: rest => by
    simp only [buildFinalPath, List.map_cons]
    exact congrArg (List.cons actorId) (buildFinalPath_ids details rest)

theorem combinedPath_ids (mp : MeetingPoint) (s : LoopState) (nA nB : BFSNode)
    (hA : lookup? s.visitedA mp.actorId = some nA)
    (hB : lookup? s.visitedB mp.actorId = some nB) :
    (combinedPath mp s).map Prod.fst = nA.chainIds.reverse ++ nB.parentChainIds := by
  rw [combinedPath, hA, hB, List.map_append]
  congr 1
  · show (nA.chainPairs.reverse).map Prod.fst = nA.chainIds.reverse
    rw [List.map_reverse, chainPairs_fst]
  · show (match nB.parent with
          | some p => p.chainPairs
          | none => []).map Prod.fst = nB.parentChainIds
    rcases nB with ⟨a2, p2, m2⟩
    cases p2 with
    | none => rfl
    | some p =>
      show p.chainPairs.map Prod.fst = p.chainIds
      exact chainPairs_fst p

/-- C9: for a search between distinct ids, whenever the loop stops on a
meeting point the two visited maps share no actor id other than the meeting
actor, the meeting actor appears exactly once in the combined reconstructed
path, and the combined path's actor ids are pairwise distinct; consequently
the actors on a returned `ConnectionResult` path are pairwise distinct. -/
theorem search_paths_disjoint (env : Env) (a b : Nat) (opts : Option Nat) (fuel : Nat)
    (st : SearchState) (hab : a ≠ b) :
    (∀ mp s, searchLoop env (opts.getD 6) fuel (initLoopState a b st) = .meet mp s →
      (∀ k, hasK s.visitedA k = true → hasK s.visitedB k = true → k = mp.actorId) ∧
      List.count mp.actorId ((combinedPath mp s).map Prod.fst) = 1 ∧
      ((combinedPath mp s).map Prod.fst).Nodup) ∧
    (∀ r, (findConnection env a b opts fuel st).2 = .result r →
      (r.path.map (fun seg => seg.actor.id)).Nodup) := by
  have hmain : ∀ mp s, searchLoop env (opts.getD 6) fuel (initLoopState a b st) = .meet mp s →
      (∀ k, hasK s.visitedA k = true → hasK s.visitedB k = true → k = mp.actorId) ∧
      List.count mp.actorId ((combinedPath mp s).map Prod.fst) = 1 ∧
      ((combinedPath mp s).map Prod.fst).Nodup := by
    intro mp s hmeet
    have hinv := searchLoop_inv env (opts.getD 6) fuel (initLoopState a b st)
      (initLoopState_inv a b st hab)
    rw [hmeet] at hinv
    obtain ⟨nA, nB, hA, hB, haA, haB, hnA, hnB, hcross, hinter⟩ := hinv
    have hids := combinedPath_ids mp s nA nB hA hB
    have hchainB : nB.chainIds = mp.actorId :: nB.parentChainIds := by
      have h := chainIds_parent nB
      rw [haB] at h
      exact h
    have hcidPB : mp.actorId ∉ nB.parentChainIds := by
      have h := hnB
      rw [hchainB] at h
      exact (List.nodup_cons.mp h).1
    have hnPB : nB.parentChainIds.Nodup := by
      have h := hnB
      rw [hchainB] at h
      exact (List.nodup_cons.mp h).2
    have hdisj : List.Disjoint nA.chainIds.reverse nB.parentChainIds := by
      intro k hkA hkB
      have hkA2 : k ∈ nA.chainIds := List.mem_reverse.mp hkA
      have hkB2 : k ∈ nB.chainIds := by
        rw [hchainB]
        exact List.mem_cons_of_mem _ hkB
      have hk := hcross k hkA2 hkB2
      rw [hk] at hkB
      exact hcidPB hkB
    have hmemA : mp.actorId ∈ nA.chainIds := by
      have h := chainIds_parent nA
      rw [haA] at h
      rw [h]
      exact List.mem_cons_self _ _
    refine ⟨hinter, ?_, ?_⟩
    · rw [hids, List.count_append, List.count_reverse,
        List.count_eq_one_of_mem hnA hmemA, List.count_eq_zero.mpr hcidPB]
    · rw [hids]
      exact List.nodup_append.mpr ⟨List.nodup_reverse.mpr hnA, hnPB, hdisj⟩
  refine ⟨hmain, ?_⟩
  intro r hres
  rcases hl : searchLoop env (opts.getD 6) fuel (initLoopState a b st)
      with s | s | ⟨mp, s⟩ | st1
  · simp [findConnection, hab, hl] at hres
  · simp [findConnection, hab, hl] at hres
  · have hfc : (findConnection env a b opts fuel st).2 = (meetResult env mp s).2 := by
      simp [findConnection, hab, hl]
    rw [hfc] at hres
    have hpath := meetResult_path env mp s r hres
    rw [hpath, buildFinalPath_ids]
    have hfst : ((combinedPath mp s).map (fun p => p.1)).Nodup →
        ((combinedPath mp s).map Prod.fst).Nodup := fun h => h
    exact (hmain mp s hl).2.2
  · simp [findConnection, hab, hl] at hres

/-- Expected result of the two-hop run, as the code produces it. -/
def twoHopResult : ConnectionResult :=
  ⟨2,
   [⟨⟨1, "P1", none, false⟩, some ⟨10, "M10", some 2000, none⟩⟩,
    ⟨⟨3, "P3", none, false⟩, none⟩,
    ⟨⟨2, "P2", none, false⟩, none⟩],
   0, []⟩

/-- Witness for C9 at the concrete two-hop run. -/
theorem search_paths_disjoint_witness :
    (1 : Nat) ≠ 2 ∧
    (findConnection envTwoHop 1 2 (some 6) 9 SearchState.empty).2 = .result twoHopResult ∧
    (twoHopResult.path.map (fun seg => seg.actor.id)).Nodup :=
  ⟨by decide, by rfl,
   (search_paths_disjoint envTwoHop 1 2 (some 6) 9 SearchState.empty (by decide)).2
     twoHopResult (by rfl)⟩

end SixDegrees
